import Mathlib

/-!
# Abstract editor view model (`public/javascripts/editor.js`)

A shallow embedding of the `EditorViewModel` of `editor.js`: the observable
abstract records, the computed view state (character budgets, button
visibility) and the edit operations on the draft (`editedAbstract`).

Conventions of the embedding:

* a Knockout observable is the value it currently holds; an operation that
  mutates the draft in place is a function returning the new draft;
* JavaScript numbers that hold list indices are `Int` (an author's affiliation
  links can become negative, see `doEditRemoveAffiliation`);
* `null`/`undefined` is `none`; a string is falsy when it is `none` or empty;
* `console.log` calls are dropped; a `throw` is recorded in `Outcome.thrown`;
* the module `lib/models` is the parameter `models`, as in the `require` call;
* the operations that read or assign the observables (`init`, `doSaveAbstract`,
  `doSubmitAbstract`, `doWithdrawAbstract`, `doStartEdit`, `doEndEdit`) act on
  a `Session`, in which the observables hold references to abstract objects, so
  that two observables holding the same object is represented; the answers of
  the Record Store are the parameter `env`.
-/

namespace Editor

/-! ## Data model -/

/-- An author of an abstract: `position`, the name fields (kept as one string)
and the `affiliations` array of affiliation positions. -/
structure Author where
  position : Int
  name : String
  affiliations : List Int
deriving DecidableEq, Repr

/-- An affiliation of an abstract: `position` and its descriptive fields (kept
as one string). -/
structure Affiliation where
  position : Int
  name : String
deriving DecidableEq, Repr

/-- A literature reference of an abstract. -/
structure Reference where
  position : Int
  text : String
deriving DecidableEq, Repr

/-- The observable abstract: the fields the editor reads and writes. -/
structure Abstract where
  uuid : Option String
  text : Option String
  acknowledgements : Option String
  state : Option String
  authors : List Author
  affiliations : List Affiliation
  references : List Reference
deriving DecidableEq, Repr

/-- The module `lib/models` handed to the editor by `require`: the constructors
the editor calls without arguments, and the `format()` method of an
affiliation. -/
structure Models where
  ObservableAuthor : Author
  ObservableAffiliation : Affiliation
  ObservableReference : Reference
  ObservableAbstract : Abstract
  affiliationFormat : Affiliation → String

/-- The observables of the view model: `abstract`, `editedAbstract` and
`isAbstractSaved`. -/
structure EditorViewModel where
  abstract : Option Abstract
  editedAbstract : Option Abstract
  isAbstractSaved : Bool
deriving DecidableEq, Repr

/-- What an operation that may `throw` leaves behind: the draft, and the thrown
value if there is one. -/
structure Outcome where
  draft : Abstract
  thrown : Option String
deriving DecidableEq, Repr

/-! ## JavaScript primitives used by the editor -/

/-- The `length` of a JavaScript string: the number of UTF-16 code units. -/
def jsLength (s : String) : Nat :=
  (s.data.map (fun c => if c.val.toNat < 65536 then 1 else 2)).sum

/-- Truthiness of a value that is `null` or a string. -/
def truthy : Option String → Bool
  | none => false
  | some s => decide (s ≠ "")

/-- The method `Array.prototype.indexOf` on an array of numbers: the first
index holding `v`, or `-1`. -/
def arrayIndexOf (l : List Int) (v : Int) : Int :=
  if v ∈ l then (List.indexOf v l : Int) else -1

/-- The call `array.splice(start, 1)`: a negative `start` counts from the end,
a `start` beyond the end removes nothing. -/
def splice1 {α : Type} (l : List α) (start : Int) : List α :=
  let len : Int := l.length
  let actualStart : Int := if start < 0 then max (len + start) 0 else min start len
  l.eraseIdx actualStart.toNat

/-- The loop `array.forEach(function(a, i) { a.position(i); })`, started at
index `i`. -/
def forEachSetPosition {α : Type} (setPosition : α → Int → α) : Nat → List α → List α
  | _, [] => []
  | i, a :: l => setPosition a (i : Int) :: forEachSetPosition setPosition (i + 1) l

/-- The setter `author.position(i)`. -/
def Author.setPosition (a : Author) (i : Int) : Author := { a with position := i }

/-- The setter `affiliation.position(i)`. -/
def Affiliation.setPosition (a : Affiliation) (i : Int) : Affiliation := { a with position := i }

/-! ## Computed view state -/

def textCharacterLimit : Int := 2000

def ackCharacterLimit : Int := 200

/-- The computed `editorTextCharactersLeft`. -/
def editorTextCharactersLeft (self : EditorViewModel) : Int :=
  match self.editedAbstract with
  | some edited =>
    if truthy edited.text then
      match edited.text with
      | some text => textCharacterLimit - (jsLength text : Int)
      | none => textCharacterLimit
    else textCharacterLimit
  | none => textCharacterLimit

/-- The computed `editorAckCharactersLeft`. -/
def editorAckCharactersLeft (self : EditorViewModel) : Int :=
  match self.editedAbstract with
  | some edited =>
    if truthy edited.acknowledgements then
      match edited.acknowledgements with
      | some ack => ackCharacterLimit - (jsLength ack : Int)
      | none => ackCharacterLimit
    else ackCharacterLimit
  | none => ackCharacterLimit

/-- The computed `showButtonSave`. -/
def showButtonSave (self : EditorViewModel) : Bool :=
  match self.abstract with
  | some abstract =>
    let saved := self.isAbstractSaved
    let state := abstract.state
    !saved || !truthy state || decide (state = some "InPreparation")
  | none => false

/-- The computed `showButtonSubmit`. -/
def showButtonSubmit (self : EditorViewModel) : Bool :=
  match self.abstract with
  | some abstract =>
    let saved := self.isAbstractSaved
    let state := abstract.state
    saved && (!truthy state || decide (state = some "InPreparation"))
  | none => false

/-- The computed `showButtonWithdraw`. -/
def showButtonWithdraw (self : EditorViewModel) : Bool :=
  match self.abstract with
  | some abstract =>
    let ok : List (Option String) := [some "Submitted", some "InReview"]
    self.isAbstractSaved && decide (abstract.state ∈ ok)
  | none => false

/-! ## Edit operations on the draft -/

/-- The operation `doEditAddAuthor`. -/
def doEditAddAuthor (models : Models) (edited : Abstract) : Abstract :=
  let author := models.ObservableAuthor
  let author := author.setPosition (edited.authors.length : Int)
  { edited with authors := edited.authors ++ [author] }

/-- The operation `doEditRemoveAuthor`. -/
def doEditRemoveAuthor (author : Author) (edited : Abstract) : Abstract :=
  let position := author.position
  let authors := edited.authors
  let authors := splice1 authors position
  let authors := forEachSetPosition Author.setPosition 0 authors
  { edited with authors := authors }

/-- The operation `doEditAddAffiliation`. -/
def doEditAddAffiliation (models : Models) (edited : Abstract) : Abstract :=
  let affiliation := models.ObservableAffiliation
  let affiliation := affiliation.setPosition (edited.affiliations.length : Int)
  { edited with affiliations := edited.affiliations ++ [affiliation] }

/-- The body of `authors.forEach` in `doEditRemoveAffiliation`, on the
`affiliations` array of one author: the comparison in the loop is against
`removePos`, the index found by `indexOf`. -/
def removeAffiliationPosition (position : Int) (affiliationPositions : List Int) : List Int :=
  let removePos := arrayIndexOf affiliationPositions position
  let affiliationPositions :=
    if removePos ≥ 0 then splice1 affiliationPositions removePos else affiliationPositions
  affiliationPositions.map (fun v => if v ≥ removePos then v - 1 else v)

/-- The operation `doEditRemoveAffiliation`. -/
def doEditRemoveAffiliation (affiliation : Affiliation) (edited : Abstract) : Abstract :=
  let position := affiliation.position
  let affiliations := edited.affiliations
  let authors := edited.authors
  let affiliations := splice1 affiliations position
  let affiliations := forEachSetPosition Affiliation.setPosition 0 affiliations
  let authors := authors.map (fun author =>
    { author with affiliations := removeAffiliationPosition position author.affiliations })
  { edited with authors := authors, affiliations := affiliations }

/-- The operation `doEditAddAuthorToAffiliation`; `authorPosition` is the value
of the select element read through jQuery. -/
def doEditAddAuthorToAffiliation (models : Models) (authorPosition : Int)
    (affiliation : Affiliation) (edited : Abstract) : Outcome :=
  let authors := edited.authors
  if h : authorPosition ≥ 0 ∧ authorPosition < (authors.length : Int) then
    let author := authors.get ⟨authorPosition.toNat, by omega⟩
    let affiliationPosition := affiliation.position
    if arrayIndexOf author.affiliations affiliationPosition < 0 then
      let author := { author with affiliations := author.affiliations ++ [affiliation.position] }
      { draft := { edited with authors := authors.set authorPosition.toNat author },
        thrown := none }
    else
      { draft := edited, thrown := none }
  else
    { draft := edited,
      thrown := some ("Unable to add author to affiliation: " ++
        models.affiliationFormat affiliation) }

/-- The `while` loop of `doEditRemoveAffiliationFromAuthor`. -/
def removeWhilePresent (affiliationPos : Int) (affiliations : List Int) : List Int :=
  if h : arrayIndexOf affiliations affiliationPos ≥ 0 then
    removeWhilePresent affiliationPos
      (splice1 affiliations (arrayIndexOf affiliations affiliationPos))
  else affiliations
termination_by affiliations.length
decreasing_by
  unfold arrayIndexOf at h ⊢
  by_cases hm : affiliationPos ∈ affiliations
  · have hlt : List.indexOf affiliationPos affiliations < affiliations.length :=
      List.indexOf_lt_length.mpr hm
    have hneg : ¬ ((List.indexOf affiliationPos affiliations : Int) < 0) := by omega
    have hidx : (min (List.indexOf affiliationPos affiliations : Int)
        (affiliations.length : Int)).toNat = List.indexOf affiliationPos affiliations := by
      omega
    simp only [hm, if_true, splice1, hneg, if_false, hidx]
    rw [List.length_eraseIdx_of_lt hlt]
    omega
  · simp [hm] at h

/-- The operation `doEditRemoveAffiliationFromAuthor`, on the author it is
given. -/
def doEditRemoveAffiliationFromAuthor (affiliation : Affiliation) (author : Author) : Author :=
  let affiliationPos := affiliation.position
  let affiliations := author.affiliations
  let affiliations := removeWhilePresent affiliationPos affiliations
  { author with affiliations := affiliations }

/-- The operation `doEditRemoveAffiliationFromAuthor` on the draft, for the
author object found at `authorIndex` of the draft's author list. -/
def doEditRemoveAffiliationFromAuthorAt (affiliation : Affiliation) (authorIndex : Nat)
    (edited : Abstract) : Abstract :=
  match edited.authors[authorIndex]? with
  | some author =>
    { edited with
      authors := edited.authors.set authorIndex
        (doEditRemoveAffiliationFromAuthor affiliation author) }
  | none => edited

/-- The operation `doEditAddReference`. -/
def doEditAddReference (models : Models) (edited : Abstract) : Abstract :=
  { edited with references := edited.references ++ [models.ObservableReference] }

/-- The operation `doEditRemoveReference`. -/
def doEditRemoveReference (index : Int) (edited : Abstract) : Abstract :=
  let references := edited.references
  let references := splice1 references index
  { edited with references := references }

/-- The function `getEditorAuthorsForAffiliation`, on the draft: the `forEach`
over the authors pushes an author when `indexOf` finds the position. The
function only reads the draft. -/
def getEditorAuthorsForAffiliation (affiliation : Affiliation) (edited : Abstract) :
    List Author :=
  edited.authors.foldl
    (fun authors author =>
      let aff := author.affiliations
      let pos := affiliation.position
      let found := arrayIndexOf aff pos
      if found ≥ 0 then authors ++ [author] else authors)
    []

/-! ## The session: observables, abstract objects and the Record Store

The observables `abstract` and `editedAbstract` hold references to abstract
objects, and two observables may hold the same object. The objects live in
`Session.objects`; a reference is an index into it. -/

/-- A request that `doSaveAbstract` sends to the Record Store: `PUT` on
`/api/abstracts/<uuid>` or `POST` on `/api/conferences/<confId>/abstracts`, with
the data `abstract.toJSON()`. -/
inductive StoreCall where
  | put (uuid : Option String) (data : Abstract) : StoreCall
  | post (confId : String) (data : Abstract) : StoreCall
deriving DecidableEq, Repr

/-- The state of the view model: the abstract objects created so far, the
observables, and the requests sent to the Record Store so far. -/
structure Session where
  objects : List Abstract
  conference : Option String
  abstract : Option Nat
  editedAbstract : Option Nat
  isAbstractSaved : Bool
  calls : List StoreCall
deriving DecidableEq, Repr

/-- What the view model is constructed with and talks to: the module
`lib/models`, the arguments `confId` and `abstrId`, and the answers of the
Record Store (`none` when the request fails, else the object passed to
`success`, read through `fromObject`). -/
structure Env where
  models : Models
  confId : Option String
  abstrId : Option String
  fetchConference : String → Option String
  fetchAbstract : String → Option Abstract
  respond : StoreCall → Option Abstract

/-- What an operation on the session leaves behind: the session, and the
thrown value if there is one. -/
structure SessionOutcome where
  session : Session
  thrown : Option String
deriving DecidableEq, Repr

/-- The value thrown when a method is called on `null`. -/
def typeError : String := "TypeError"

/-- The string of a truthy value that is `null` or a string. -/
def truthyValue : Option String → Option String
  | none => none
  | some s => if s ≠ "" then some s else none

/-- The view model as the constructor leaves it. -/
def Session.initial : Session :=
  { objects := [], conference := none, abstract := none, editedAbstract := none,
    isAbstractSaved := false, calls := [] }

/-- The object an observable holds: `none` for `null`. A reference outside
`objects` does not occur (see `Session.wellFormed`) and reads as `null`. -/
def Session.deref (s : Session) : Option Nat → Option Abstract
  | none => none
  | some r => s.objects[r]?

/-- The saved abstract `self.abstract()`. -/
def Session.saved (s : Session) : Option Abstract := s.deref s.abstract

/-- The draft `self.editedAbstract()`. -/
def Session.draft (s : Session) : Option Abstract := s.deref s.editedAbstract

/-- The values the computed observables read. -/
def Session.view (s : Session) : EditorViewModel :=
  { abstract := s.saved, editedAbstract := s.draft, isAbstractSaved := s.isAbstractSaved }

/-- A new abstract object: the session with the object, and its reference. -/
def Session.alloc (s : Session) (a : Abstract) : Session × Nat :=
  ({ s with objects := s.objects ++ [a] }, s.objects.length)

/-- An in-place change of the object at reference `r`. -/
def Session.update (s : Session) (r : Nat) (a : Abstract) : Session :=
  { s with objects := s.objects.set r a }

/-- Every observable holds `null` or an object of the session. -/
def Session.wellFormed (s : Session) : Prop :=
  (∀ r, s.abstract = some r → r < s.objects.length) ∧
  (∀ r, s.editedAbstract = some r → r < s.objects.length)

instance (s : Session) : Decidable s.wellFormed :=
  decidable_of_iff
    ((s.abstract.all (fun r => decide (r < s.objects.length)) = true) ∧
      (s.editedAbstract.all (fun r => decide (r < s.objects.length)) = true))
    (by unfold Session.wellFormed; cases s.abstract <;> cases s.editedAbstract <;> simp)

/-- Modelled from the spec: `toObject`, `fromObject` (of `lib/models`, absent)
around `$.extend(true, {}, ...)` in `doStartEdit`; the content is deep-copied
into a fresh draft. -/
def deepCopy (a : Abstract) : Abstract := a

/-- The call `$.ajax` of `doSaveAbstract` with `async: false`: the request is
sent, then `success` stores the answer as a new saved abstract and sets
`isAbstractSaved`, or `fail` logs. -/
def ajaxSave (env : Env) (call : StoreCall) (s : Session) : SessionOutcome :=
  let s := { s with calls := s.calls ++ [call] }
  match env.respond call with
  | some obj =>
    let (s, r) := s.alloc obj
    { session := { s with abstract := some r, isAbstractSaved := true }, thrown := none }
  | none => { session := s, thrown := none }

/-- The operation `doSaveAbstract`; `arg` is the argument when it is an
`ObservableAbstract`, else `none`. -/
def doSaveAbstract (env : Env) (arg : Option Abstract) (s : Session) : SessionOutcome :=
  let abstract : Option Abstract :=
    match arg with
    | some a => some a
    | none => s.saved
  if s.isAbstractSaved then
    match s.saved, abstract with
    | some saved, some data => ajaxSave env (StoreCall.put saved.uuid data) s
    | _, _ => { session := s, thrown := some typeError }
  else
    match truthyValue env.confId with
    | some confId =>
      match abstract with
      | some data => ajaxSave env (StoreCall.post confId data) s
      | none => { session := s, thrown := some typeError }
    | none =>
      { session := s, thrown := some "Conference id or abstract id must be defined" }

/-- The assignment `self.abstract().state(value)`, then
`self.doSaveAbstract(self.abstract())`. -/
def setStateAndSave (env : Env) (value : String) (s : Session) : SessionOutcome :=
  match s.abstract with
  | none => { session := s, thrown := some typeError }
  | some r =>
    match s.objects[r]? with
    | none => { session := s, thrown := some typeError }
    | some a =>
      let s := s.update r { a with state := some value }
      doSaveAbstract env s.saved s

/-- The operation `doSubmitAbstract`. -/
def doSubmitAbstract (env : Env) (s : Session) : SessionOutcome :=
  setStateAndSave env "Submitted" s

/-- The operation `doWithdrawAbstract`. -/
def doWithdrawAbstract (env : Env) (s : Session) : SessionOutcome :=
  setStateAndSave env "Withdrawn" s

/-- The operation `doStartEdit`. -/
def doStartEdit (s : Session) : SessionOutcome :=
  match s.saved with
  | none => { session := s, thrown := some typeError }
  | some a =>
    let obj := deepCopy a
    let (s, r) := s.alloc obj
    { session := { s with editedAbstract := some r }, thrown := none }

/-- The operation `doEndEdit`. -/
def doEndEdit (env : Env) (s : Session) : SessionOutcome :=
  if s.isAbstractSaved then
    doSaveAbstract env s.draft s
  else
    { session := { s with abstract := s.editedAbstract }, thrown := none }

/-- The function `requestConference`. -/
def requestConference (env : Env) (confId : String) (s : Session) : Session :=
  match env.fetchConference confId with
  | some conference => { s with conference := some conference }
  | none => s

/-- The function `requestAbstract`. -/
def requestAbstract (env : Env) (abstrId : String) (s : Session) : Session :=
  match env.fetchAbstract abstrId with
  | some obj =>
    let (s, r) := s.alloc obj
    { s with abstract := some r, editedAbstract := some r }
  | none => s

/-- The operation `init`. -/
def init (env : Env) (s : Session) : Session :=
  let s :=
    match truthyValue env.confId with
    | some confId => requestConference env confId s
    | none => s
  match truthyValue env.abstrId with
  | some abstrId =>
    let s := requestAbstract env abstrId s
    { s with isAbstractSaved := true }
  | none =>
    let (s, r) := s.alloc env.models.ObservableAbstract
    { s with abstract := some r, editedAbstract := some r }

/-- An edit operation on the draft, with its arguments. -/
inductive EditOp where
  | addAuthor : EditOp
  | removeAuthor (author : Author) : EditOp
  | addAffiliation : EditOp
  | removeAffiliation (affiliation : Affiliation) : EditOp
  | addAuthorToAffiliation (authorPosition : Int) (affiliation : Affiliation) : EditOp
  | removeAffiliationFromAuthor (affiliation : Affiliation) (authorIndex : Nat) : EditOp
  | addReference : EditOp
  | removeReference (index : Int) : EditOp
deriving DecidableEq, Repr

/-- The draft an edit operation leaves. -/
def applyEditOp (models : Models) : EditOp → Abstract → Abstract
  | .addAuthor, edited => doEditAddAuthor models edited
  | .removeAuthor author, edited => doEditRemoveAuthor author edited
  | .addAffiliation, edited => doEditAddAffiliation models edited
  | .removeAffiliation affiliation, edited => doEditRemoveAffiliation affiliation edited
  | .addAuthorToAffiliation authorPosition affiliation, edited =>
    (doEditAddAuthorToAffiliation models authorPosition affiliation edited).draft
  | .removeAffiliationFromAuthor affiliation authorIndex, edited =>
    doEditRemoveAffiliationFromAuthorAt affiliation authorIndex edited
  | .addReference, edited => doEditAddReference models edited
  | .removeReference index, edited => doEditRemoveReference index edited

/-- An edit operation in the session: it changes the object that
`editedAbstract` holds, in place; without a draft nothing is changed. -/
def runEditOp (env : Env) (op : EditOp) (s : Session) : Session :=
  match s.editedAbstract with
  | none => s
  | some r =>
    match s.objects[r]? with
    | none => s
    | some edited => s.update r (applyEditOp env.models op edited)

/-- A sequence of edit operations in the session, first operation first. -/
def runEditOps (env : Env) : List EditOp → Session → Session
  | [], s => s
  | op :: ops, s => runEditOps env ops (runEditOp env op s)

/-! ## Vocabulary of the specification -/

/-- The length a field counts for: `0` when the field is absent. -/
def fieldLength : Option String → Nat
  | none => 0
  | some s => jsLength s

/-- The length of the draft's text: `0` when there is no draft. -/
def draftTextLength (self : EditorViewModel) : Nat :=
  match self.editedAbstract with
  | none => 0
  | some edited => fieldLength edited.text

/-- The length of the draft's acknowledgements: `0` when there is no draft. -/
def draftAckLength (self : EditorViewModel) : Nat :=
  match self.editedAbstract with
  | none => 0
  | some edited => fieldLength edited.acknowledgements

/-- A state that is empty or unset. -/
def stateEmpty (state : Option String) : Prop :=
  state = none ∨ state = some ""

instance (state : Option String) : Decidable (stateEmpty state) := by
  unfold stateEmpty; infer_instance

/-- The positions `0, 1, ..., n-1` in this order. -/
def positionsUpTo (n : Nat) : List Int :=
  List.map (fun (i : Nat) => (i : Int)) (List.range n)

/-- A list of positions is contiguous: the `i`-th position is `i`. -/
def Contiguous (positions : List Int) : Prop :=
  positions = positionsUpTo positions.length

instance (positions : List Int) : Decidable (Contiguous positions) := by
  unfold Contiguous; infer_instance

/-- Validity of the author-affiliation links of a draft: every link of every
author is a position below the number of affiliations, and no author holds a
link twice. -/
def linksValid (edited : Abstract) : Prop :=
  ∀ author ∈ edited.authors,
    (∀ v ∈ author.affiliations, 0 ≤ v ∧ v < (edited.affiliations.length : Int)) ∧
    author.affiliations.Nodup

instance (edited : Abstract) : Decidable (linksValid edited) := by
  unfold linksValid; infer_instance

/-- One step of a sequence of author insertions and removals. -/
inductive AuthorOp where
  | add : AuthorOp
  | remove (author : Author) : AuthorOp
deriving DecidableEq, Repr

/-- One step of a sequence of affiliation insertions and removals. -/
inductive AffiliationOp where
  | add : AffiliationOp
  | remove (affiliation : Affiliation) : AffiliationOp
deriving DecidableEq, Repr

/-- Apply one author step to the draft. -/
def runAuthorOp (models : Models) (edited : Abstract) : AuthorOp → Abstract
  | .add => doEditAddAuthor models edited
  | .remove author => doEditRemoveAuthor author edited

/-- Apply one affiliation step to the draft. -/
def runAffiliationOp (models : Models) (edited : Abstract) : AffiliationOp → Abstract
  | .add => doEditAddAffiliation models edited
  | .remove affiliation => doEditRemoveAffiliation affiliation edited

/-- Apply a sequence of author steps, first step first. -/
def runAuthorOps (models : Models) : List AuthorOp → Abstract → Abstract
  | [], edited => edited
  | op :: ops, edited => runAuthorOps models ops (runAuthorOp models edited op)

/-- Apply a sequence of affiliation steps, first step first. -/
def runAffiliationOps (models : Models) : List AffiliationOp → Abstract → Abstract
  | [], edited => edited
  | op :: ops, edited => runAffiliationOps models ops (runAffiliationOp models edited op)

/-- Every removal of the sequence is given an author that is in the list at
that moment. -/
def authorOpsGiven (models : Models) : List AuthorOp → Abstract → Prop
  | [], _ => True
  | .add :: ops, edited => authorOpsGiven models ops (doEditAddAuthor models edited)
  | .remove author :: ops, edited =>
    author ∈ edited.authors ∧ authorOpsGiven models ops (doEditRemoveAuthor author edited)

/-- Every removal of the sequence is given an affiliation that is in the list
at that moment. -/
def affiliationOpsGiven (models : Models) : List AffiliationOp → Abstract → Prop
  | [], _ => True
  | .add :: ops, edited => affiliationOpsGiven models ops (doEditAddAffiliation models edited)
  | .remove affiliation :: ops, edited =>
    affiliation ∈ edited.affiliations ∧
      affiliationOpsGiven models ops (doEditRemoveAffiliation affiliation edited)

/-- The predicate `authorOpsGiven` can be evaluated. -/
instance authorOpsGivenDecidable (models : Models) :
    ∀ (ops : List AuthorOp) (edited : Abstract), Decidable (authorOpsGiven models ops edited)
  | [], _ => isTrue trivial
  | .add :: ops, edited => authorOpsGivenDecidable models ops (doEditAddAuthor models edited)
  | .remove author :: ops, edited =>
    @instDecidableAnd _ _ _ (authorOpsGivenDecidable models ops (doEditRemoveAuthor author edited))

/-- The predicate `affiliationOpsGiven` can be evaluated. -/
instance affiliationOpsGivenDecidable (models : Models) :
    ∀ (ops : List AffiliationOp) (edited : Abstract),
      Decidable (affiliationOpsGiven models ops edited)
  | [], _ => isTrue trivial
  | .add :: ops, edited =>
    affiliationOpsGivenDecidable models ops (doEditAddAffiliation models edited)
  | .remove affiliation :: ops, edited =>
    @instDecidableAnd _ _ _
      (affiliationOpsGivenDecidable models ops (doEditRemoveAffiliation affiliation edited))

/-! ## Concrete drafts used as inputs -/

/-- A module `lib/models` whose constructors give blank records. -/
def blankModels : Models where
  ObservableAuthor := { position := 0, name := "", affiliations := [] }
  ObservableAffiliation := { position := 0, name := "" }
  ObservableReference := { position := 0, text := "" }
  ObservableAbstract :=
    { uuid := none, text := none, acknowledgements := none, state := none,
      authors := [], affiliations := [], references := [] }
  affiliationFormat := fun a => a.name

/-- The affiliation `F0` at position 0. -/
def affiliationF0 : Affiliation := { position := 0, name := "F0" }

/-- The affiliation `F1` at position 1. -/
def affiliationF1 : Affiliation := { position := 1, name := "F1" }

/-- A draft with the affiliations `F0`, `F1` and one author `A` holding the
given links. -/
def draftWithLinks (links : List Int) : Abstract :=
  { uuid := none, text := none, acknowledgements := none, state := none,
    authors := [{ position := 0, name := "A", affiliations := links }],
    affiliations := [affiliationF0, affiliationF1], references := [] }

/-- A draft with three authors and three affiliations at positions 0, 1, 2. -/
def draftThree : Abstract :=
  { uuid := none, text := none, acknowledgements := none, state := none,
    authors := [{ position := 0, name := "A", affiliations := [] },
      { position := 1, name := "B", affiliations := [] },
      { position := 2, name := "C", affiliations := [] }],
    affiliations := [{ position := 0, name := "F0" }, { position := 1, name := "F1" },
      { position := 2, name := "F2" }],
    references := [] }

/-- An abstract with uuid `u1`, in the given state, without content. -/
def abstractInState (state : Option String) : Abstract :=
  { uuid := some "u1", text := none, acknowledgements := none, state := state,
    authors := [], affiliations := [], references := [] }

/-- A session whose saved abstract, also its draft, is `abstractInState state`
and has been saved. -/
def savedSession (state : Option String) : Session :=
  { objects := [abstractInState state], conference := none, abstract := some 0,
    editedAbstract := some 0, isAbstractSaved := true, calls := [] }

/-- A view model constructed with a conference id only, whose Record Store
rejects every request. -/
def failingEnv : Env :=
  { models := blankModels, confId := some "c1", abstrId := none,
    fetchConference := fun _ => none, fetchAbstract := fun _ => none,
    respond := fun _ => none }

/-- A view model constructed with a conference id only, whose Record Store
answers every request with the data it was sent. -/
def echoEnv : Env :=
  { models := blankModels, confId := some "c1", abstrId := none,
    fetchConference := fun _ => none, fetchAbstract := fun _ => none,
    respond := fun call =>
      match call with
      | .put _ data => some data
      | .post _ data => some data }

/-- A view model constructed with the abstract id `a1`, whose Record Store
rejects every request. -/
def missingEnv : Env :=
  { models := blankModels, confId := none, abstrId := some "a1",
    fetchConference := fun _ => none, fetchAbstract := fun _ => none,
    respond := fun _ => none }

/-- A draft with the three references of positions 0, 1, 2. -/
def draftThreeReferences : Abstract :=
  { uuid := none, text := none, acknowledgements := none, state := none,
    authors := [], affiliations := [],
    references := [{ position := 0, text := "R0" }, { position := 1, text := "R1" },
      { position := 2, text := "R2" }] }

/-! ## Auxiliary facts -/

theorem jsLength_empty : jsLength "" = 0 := by
  simp [jsLength]

theorem jsLength_replicate_a (n : Nat) : jsLength (String.mk (List.replicate n 'a')) = n := by
  induction n with
  | zero => simp [jsLength]
  | succ k ih =>
    simp only [jsLength, List.replicate_succ, List.map_cons, List.sum_cons] at ih ⊢
    rw [ih]
    have h : ('a'.val.toNat < 65536) := by decide
    simp only [h, if_true]
    omega

theorem truthy_eq_false_iff (o : Option String) : truthy o = false ↔ stateEmpty o := by
  cases o with
  | none => simp [truthy, stateEmpty]
  | some s => simp [truthy, stateEmpty]

theorem charactersLeft_field (limit : Int) (field : Option String) :
    (if truthy field then
      match field with
      | some text => limit - (jsLength text : Int)
      | none => limit
    else limit) = limit - (fieldLength field : Int) := by
  cases field with
  | none => simp [truthy, fieldLength]
  | some s =>
    by_cases hs : s = ""
    · subst hs
      simp [truthy, fieldLength, jsLength_empty]
    · simp [truthy, fieldLength, hs]

/-! ## C7: character budgets -/

/-- C7: `editorTextCharactersLeft` is 2000 minus the length of the draft's
text and `editorAckCharactersLeft` is 200 minus the length of the draft's
acknowledgements, an absent draft or field counting as length 0; the value is
not clamped, so it is negative exactly when the field is over its limit; an
empty text gives 2000 and a text of 2001 characters gives -1. -/
theorem C7_charactersLeft (self : EditorViewModel) (edited : Abstract) :
    editorTextCharactersLeft self = 2000 - (draftTextLength self : Int) ∧
    editorAckCharactersLeft self = 200 - (draftAckLength self : Int) ∧
    (editorTextCharactersLeft self < 0 ↔ 2000 < draftTextLength self) ∧
    (editorAckCharactersLeft self < 0 ↔ 200 < draftAckLength self) ∧
    editorTextCharactersLeft { self with editedAbstract := none } = 2000 ∧
    editorAckCharactersLeft { self with editedAbstract := none } = 200 ∧
    editorTextCharactersLeft
      { self with editedAbstract := some { edited with text := none } } = 2000 ∧
    editorTextCharactersLeft
      { self with editedAbstract := some { edited with text := some "" } } = 2000 ∧
    editorTextCharactersLeft
      { self with
        editedAbstract := some { edited with text := some ⟨List.replicate 2001 'a'⟩ } } = -1 := by
  have htext : ∀ s : EditorViewModel,
      editorTextCharactersLeft s = 2000 - (draftTextLength s : Int) := by
    intro s
    unfold editorTextCharactersLeft draftTextLength
    cases hs : s.editedAbstract with
    | none => simp [textCharacterLimit]
    | some e => simpa [textCharacterLimit] using charactersLeft_field 2000 e.text
  have hack : ∀ s : EditorViewModel,
      editorAckCharactersLeft s = 200 - (draftAckLength s : Int) := by
    intro s
    unfold editorAckCharactersLeft draftAckLength
    cases hs : s.editedAbstract with
    | none => simp [ackCharacterLimit]
    | some e => simpa [ackCharacterLimit] using charactersLeft_field 200 e.acknowledgements
  refine ⟨htext self, hack self, ?_, ?_, ?_, ?_, ?_, ?_, ?_⟩
  · rw [htext]; omega
  · rw [hack]; omega
  · rw [htext]; simp [draftTextLength]
  · rw [hack]; simp [draftAckLength]
  · rw [htext]; simp [draftTextLength, fieldLength]
  · rw [htext]; simp [draftTextLength, fieldLength, jsLength_empty]
  · rw [htext]
    simp only [draftTextLength, fieldLength]
    rw [jsLength_replicate_a]
    norm_num

/-! ## C6: button visibility -/

/-- C6: `showButtonSave` is true iff the record exists and (it is not saved,
or its state is empty, or its state is InPreparation); `showButtonSubmit` is
true iff the record exists, is saved and its state is empty or InPreparation;
`showButtonWithdraw` is true iff the record exists, is saved and its state is
Submitted or InReview. -/
theorem C6_showButtons (self : EditorViewModel) :
    (showButtonSave self = true ↔
      ∃ abstract, self.abstract = some abstract ∧
        (self.isAbstractSaved = false ∨ stateEmpty abstract.state ∨
          abstract.state = some "InPreparation")) ∧
    (showButtonSubmit self = true ↔
      ∃ abstract, self.abstract = some abstract ∧ self.isAbstractSaved = true ∧
        (stateEmpty abstract.state ∨ abstract.state = some "InPreparation")) ∧
    (showButtonWithdraw self = true ↔
      ∃ abstract, self.abstract = some abstract ∧ self.isAbstractSaved = true ∧
        (abstract.state = some "Submitted" ∨ abstract.state = some "InReview")) := by
  obtain ⟨abstract, editedAbstract, saved⟩ := self
  cases abstract with
  | none => simp [showButtonSave, showButtonSubmit, showButtonWithdraw]
  | some a =>
    have ht := truthy_eq_false_iff a.state
    refine ⟨?_, ?_, ?_⟩
    · simp only [showButtonSave, Bool.or_eq_true, Bool.not_eq_true', decide_eq_true_eq,
        Option.some.injEq, exists_eq_left', ht]
      tauto
    · simp only [showButtonSubmit, Bool.and_eq_true, Bool.or_eq_true, Bool.not_eq_true',
        decide_eq_true_eq, Option.some.injEq, exists_eq_left', ht]
    · simp [showButtonWithdraw]

/-! ## Positional lists: auxiliary facts -/

theorem contiguous_iff (ps : List Int) :
    Contiguous ps ↔ ∀ i (h : i < ps.length), ps[i] = (i : Int) := by
  unfold Contiguous
  constructor
  · intro h i hi
    have hget := List.getElem_of_eq h hi
    rw [hget]
    simp only [positionsUpTo, List.getElem_map, List.getElem_range]
  · intro h
    apply List.ext_getElem
    · simp only [positionsUpTo, List.length_map, List.length_range]
    · intro i h1 h2
      rw [h i h1]
      simp only [positionsUpTo, List.getElem_map, List.getElem_range]

theorem contiguous_map_iff {α : Type} (pos : α → Int) (l : List α) :
    Contiguous (l.map pos) ↔ ∀ (i : Nat) (a : α), l[i]? = some a → pos a = (i : Int) := by
  rw [contiguous_iff]
  constructor
  · intro h i a hia
    obtain ⟨hi, rfl⟩ := List.getElem?_eq_some.mp hia
    have := h i (by simpa using hi)
    simpa using this
  · intro h i hi
    have hi2 : i < l.length := by simpa using hi
    have := h i l[i] (List.getElem?_eq_getElem hi2)
    simpa using this

theorem splice1_natCast {α : Type} (l : List α) (n : Nat) :
    splice1 l (n : Int) = l.eraseIdx n := by
  unfold splice1
  have hneg : ¬ ((n : Int) < 0) := by omega
  simp only [hneg, if_false]
  by_cases hn : n ≤ l.length
  · have : (min (n : Int) (l.length : Int)).toNat = n := by omega
    rw [this]
  · have : (min (n : Int) (l.length : Int)).toNat = l.length := by omega
    rw [this, List.eraseIdx_of_length_le (le_refl _), List.eraseIdx_of_length_le (by omega)]

theorem forEachSetPosition_length {α : Type} (setPos : α → Int → α) (k : Nat) (l : List α) :
    (forEachSetPosition setPos k l).length = l.length := by
  induction l generalizing k with
  | nil => rfl
  | cons a l ih => simp [forEachSetPosition, ih]

theorem forEachSetPosition_getElem? {α : Type} (setPos : α → Int → α) (k : Nat) (l : List α)
    (j : Nat) :
    (forEachSetPosition setPos k l)[j]? = (l[j]?).map (fun a => setPos a ((k + j : Nat) : Int)) := by
  induction l generalizing k j with
  | nil => simp [forEachSetPosition]
  | cons a l ih =>
    cases j with
    | zero => simp [forEachSetPosition]
    | succ j =>
      simp only [forEachSetPosition, List.getElem?_cons_succ, ih]
      have : k + 1 + j = k + (j + 1) := by omega
      rw [this]

theorem forEachSetPosition_contiguous {α : Type} (pos : α → Int) (setPos : α → Int → α)
    (hps : ∀ a i, pos (setPos a i) = i) (l : List α) :
    Contiguous ((forEachSetPosition setPos 0 l).map pos) := by
  rw [contiguous_map_iff]
  intro i a hia
  rw [forEachSetPosition_getElem?] at hia
  cases hl : l[i]? with
  | none => simp [hl] at hia
  | some b =>
    simp only [hl, Option.map_some', Option.some.injEq] at hia
    rw [← hia, hps]
    simp

theorem append_contiguous {α : Type} (pos : α → Int) (setPos : α → Int → α)
    (hps : ∀ a i, pos (setPos a i) = i) (l : List α) (b : α)
    (hl : Contiguous (l.map pos)) :
    Contiguous ((l ++ [setPos b (l.length : Int)]).map pos) := by
  rw [contiguous_map_iff] at hl ⊢
  intro i a hia
  by_cases hi : i < l.length
  · rw [List.getElem?_append_left hi] at hia
    exact hl i a hia
  · rw [List.getElem?_append_right (by omega)] at hia
    by_cases h0 : i - l.length = 0
    · have hil : i = l.length := by omega
      simp only [h0, List.getElem?_cons_zero, Option.some.injEq] at hia
      rw [← hia, hps, hil]
    · obtain ⟨m, hm⟩ := Nat.exists_eq_succ_of_ne_zero h0
      simp [hm] at hia

/-- Removal from a positional list: `splice(position, 1)` followed by the
renumbering `forEach`, on a contiguous list and one of its elements. -/
theorem removeAt_getElem? {α : Type} (pos : α → Int) (setPos : α → Int → α)
    (hfix : ∀ a, setPos a (pos a) = a) (l : List α) (x : α)
    (hl : Contiguous (l.map pos)) (hx : x ∈ l) :
    ∃ p : Nat, pos x = (p : Int) ∧ l[p]? = some x ∧
      (forEachSetPosition setPos 0 (splice1 l (pos x))).length + 1 = l.length ∧
      (∀ i, i < p → (forEachSetPosition setPos 0 (splice1 l (pos x)))[i]? = l[i]?) ∧
      (∀ i, p ≤ i → (forEachSetPosition setPos 0 (splice1 l (pos x)))[i]? =
        (l[i + 1]?).map (fun a => setPos a (pos a - 1))) := by
  rw [contiguous_map_iff] at hl
  obtain ⟨p, hp⟩ := List.mem_iff_getElem?.mp hx
  have hpos : pos x = (p : Int) := hl p x hp
  have hplt : p < l.length := (List.getElem?_eq_some.mp hp).1
  refine ⟨p, hpos, hp, ?_, ?_, ?_⟩
  · rw [forEachSetPosition_length, hpos, splice1_natCast, List.length_eraseIdx_of_lt hplt]
    omega
  · intro i hi
    rw [forEachSetPosition_getElem?, hpos, splice1_natCast, List.getElem?_eraseIdx_of_lt _ _ _ hi]
    cases hli : l[i]? with
    | none => rfl
    | some a =>
      have ha := hl i a hli
      simp only [Option.map_some', Nat.zero_add, Option.some.injEq]
      rw [← ha]
      exact hfix a
  · intro i hi
    rw [forEachSetPosition_getElem?, hpos, splice1_natCast, List.getElem?_eraseIdx_of_ge _ _ _ hi]
    cases hli : l[i + 1]? with
    | none => rfl
    | some a =>
      have ha := hl (i + 1) a hli
      simp only [Option.map_some', Nat.zero_add, Option.some.injEq]
      have : pos a - 1 = (i : Int) := by rw [ha]; push_cast; omega
      rw [this]

theorem author_pos_setPosition (a : Author) (i : Int) : (a.setPosition i).position = i := rfl

theorem author_setPosition_fix (a : Author) : a.setPosition a.position = a := rfl

theorem affiliation_pos_setPosition (a : Affiliation) (i : Int) :
    (a.setPosition i).position = i := rfl

theorem affiliation_setPosition_fix (a : Affiliation) : a.setPosition a.position = a := rfl

theorem runAuthorOps_contiguous (models : Models) (ops : List AuthorOp) (edited : Abstract)
    (h : Contiguous (edited.authors.map (fun a => a.position))) :
    Contiguous ((runAuthorOps models ops edited).authors.map (fun a => a.position)) := by
  induction ops generalizing edited with
  | nil => exact h
  | cons op ops ih =>
    apply ih
    cases op with
    | add =>
      exact append_contiguous (fun a : Author => a.position) Author.setPosition
        author_pos_setPosition edited.authors models.ObservableAuthor h
    | remove author =>
      exact forEachSetPosition_contiguous (fun a : Author => a.position) Author.setPosition
        author_pos_setPosition _

theorem runAffiliationOps_contiguous (models : Models) (ops : List AffiliationOp)
    (edited : Abstract) (h : Contiguous (edited.affiliations.map (fun a => a.position))) :
    Contiguous ((runAffiliationOps models ops edited).affiliations.map (fun a => a.position)) := by
  induction ops generalizing edited with
  | nil => exact h
  | cons op ops ih =>
    apply ih
    cases op with
    | add =>
      exact append_contiguous (fun a : Affiliation => a.position) Affiliation.setPosition
        affiliation_pos_setPosition edited.affiliations models.ObservableAffiliation h
    | remove affiliation =>
      exact forEachSetPosition_contiguous (fun a : Affiliation => a.position)
        Affiliation.setPosition affiliation_pos_setPosition _

/-! ## C3: positional contiguity -/

/-- C3: starting from an empty author list (resp. affiliation list), after
every finite sequence of `doEditAddAuthor` / `doEditRemoveAuthor` (resp.
`doEditAddAffiliation` / `doEditRemoveAffiliation`) calls in which each removal
is given an element currently in the list, the `i`-th element of the list has
position `i`: the positions are exactly `0, ..., length-1`, without gap or
duplicate. -/
theorem C3_positions_contiguous (models : Models) (edited : Abstract) :
    (∀ ops : List AuthorOp, edited.authors = [] → authorOpsGiven models ops edited →
      (runAuthorOps models ops edited).authors.map (fun a => a.position) =
          positionsUpTo (runAuthorOps models ops edited).authors.length ∧
        ∀ (i : Nat) (a : Author), (runAuthorOps models ops edited).authors[i]? = some a →
          a.position = (i : Int)) ∧
    (∀ ops : List AffiliationOp, edited.affiliations = [] →
      affiliationOpsGiven models ops edited →
      (runAffiliationOps models ops edited).affiliations.map (fun a => a.position) =
          positionsUpTo (runAffiliationOps models ops edited).affiliations.length ∧
        ∀ (i : Nat) (a : Affiliation),
          (runAffiliationOps models ops edited).affiliations[i]? = some a →
            a.position = (i : Int)) := by
  constructor
  · intro ops hnil _
    have h0 : Contiguous (edited.authors.map (fun a => a.position)) := by
      rw [hnil]; rfl
    have h := runAuthorOps_contiguous models ops edited h0
    refine ⟨?_, (contiguous_map_iff _ _).mp h⟩
    have h2 := h
    unfold Contiguous at h2
    rw [List.length_map] at h2
    exact h2
  · intro ops hnil _
    have h0 : Contiguous (edited.affiliations.map (fun a => a.position)) := by
      rw [hnil]; rfl
    have h := runAffiliationOps_contiguous models ops edited h0
    refine ⟨?_, (contiguous_map_iff _ _).mp h⟩
    have h2 := h
    unfold Contiguous at h2
    rw [List.length_map] at h2
    exact h2

/-- C3 at concrete sequences: two insertions, the removal of the first
element, one more insertion. -/
theorem C3_positions_contiguous_witness :
    (authorOpsGiven blankModels
        [.add, .add, .remove { position := 0, name := "", affiliations := [] }, .add]
        blankModels.ObservableAbstract ∧
      (runAuthorOps blankModels
        [.add, .add, .remove { position := 0, name := "", affiliations := [] }, .add]
        blankModels.ObservableAbstract).authors.map (fun a => a.position) = [0, 1]) ∧
    (affiliationOpsGiven blankModels
        [.add, .add, .remove { position := 0, name := "" }, .add]
        blankModels.ObservableAbstract ∧
      (runAffiliationOps blankModels
        [.add, .add, .remove { position := 0, name := "" }, .add]
        blankModels.ObservableAbstract).affiliations.map (fun a => a.position) = [0, 1]) :=
  ⟨⟨by decide,
    ((C3_positions_contiguous blankModels blankModels.ObservableAbstract).1
      [.add, .add, .remove { position := 0, name := "", affiliations := [] }, .add]
      rfl (by decide)).1⟩,
   ⟨by decide,
    ((C3_positions_contiguous blankModels blankModels.ObservableAbstract).2
      [.add, .add, .remove { position := 0, name := "" }, .add]
      rfl (by decide)).1⟩⟩

/-! ## C4: removal from a positional list -/

/-- C4: on an author list (likewise an affiliation list) whose `i`-th element
has position `i`, removing an element `x` of the list, of position `p`, gives
the original list without the element at index `p`: the length decreases by
one, the elements before `p` are unchanged, and the element at each index
`i >= p` is the original element at index `i+1` with its position decremented
by one. -/
theorem C4_removeAt (edited : Abstract) :
    (∀ x : Author, Contiguous (edited.authors.map (fun a => a.position)) →
      x ∈ edited.authors →
      ∃ p : Nat, x.position = (p : Int) ∧ edited.authors[p]? = some x ∧
        (doEditRemoveAuthor x edited).authors.length + 1 = edited.authors.length ∧
        (∀ i, i < p → (doEditRemoveAuthor x edited).authors[i]? = edited.authors[i]?) ∧
        (∀ i, p ≤ i → (doEditRemoveAuthor x edited).authors[i]? =
          (edited.authors[i + 1]?).map (fun a => { a with position := a.position - 1 }))) ∧
    (∀ x : Affiliation, Contiguous (edited.affiliations.map (fun a => a.position)) →
      x ∈ edited.affiliations →
      ∃ p : Nat, x.position = (p : Int) ∧ edited.affiliations[p]? = some x ∧
        (doEditRemoveAffiliation x edited).affiliations.length + 1 =
          edited.affiliations.length ∧
        (∀ i, i < p →
          (doEditRemoveAffiliation x edited).affiliations[i]? = edited.affiliations[i]?) ∧
        (∀ i, p ≤ i → (doEditRemoveAffiliation x edited).affiliations[i]? =
          (edited.affiliations[i + 1]?).map
            (fun a => { a with position := a.position - 1 }))) := by
  constructor
  · intro x hl hx
    exact removeAt_getElem? (fun a : Author => a.position) Author.setPosition
      author_setPosition_fix edited.authors x hl hx
  · intro x hl hx
    exact removeAt_getElem? (fun a : Affiliation => a.position) Affiliation.setPosition
      affiliation_setPosition_fix edited.affiliations x hl hx

/-- C4 on `draftThree`, removing the author and the affiliation at position 1. -/
theorem C4_removeAt_witness :
    (Contiguous (draftThree.authors.map (fun a => a.position)) ∧
      ({ position := 1, name := "B", affiliations := [] } : Author) ∈ draftThree.authors ∧
      ∃ p : Nat, (1 : Int) = (p : Int) ∧
        draftThree.authors[p]? = some { position := 1, name := "B", affiliations := [] } ∧
        (doEditRemoveAuthor { position := 1, name := "B", affiliations := [] }
          draftThree).authors.length + 1 = 3) ∧
    (Contiguous (draftThree.affiliations.map (fun a => a.position)) ∧
      ({ position := 1, name := "F1" } : Affiliation) ∈ draftThree.affiliations ∧
      ∃ p : Nat, (1 : Int) = (p : Int) ∧
        draftThree.affiliations[p]? = some { position := 1, name := "F1" } ∧
        (doEditRemoveAffiliation { position := 1, name := "F1" }
          draftThree).affiliations.length + 1 = 3) :=
  ⟨⟨by decide, by decide,
    match (C4_removeAt draftThree).1 { position := 1, name := "B", affiliations := [] }
      (by decide) (by decide) with
    | ⟨p, h1, h2, h3, _⟩ => ⟨p, h1, h2, h3⟩⟩,
   ⟨by decide, by decide,
    match (C4_removeAt draftThree).2 { position := 1, name := "F1" }
      (by decide) (by decide) with
    | ⟨p, h1, h2, h3, _⟩ => ⟨p, h1, h2, h3⟩⟩⟩

/-! ## C5: insertion into a positional list -/

/-- C5: `doEditAddAuthor` (resp. `doEditAddAffiliation`) appends exactly one
new element at the end of the author (resp. affiliation) list; the position of
the new element is the new length minus one, that is the old length; the
elements present before, their order and their positions are unchanged, and so
is the rest of the draft. -/
theorem C5_insertAt (models : Models) (edited : Abstract) :
    ((doEditAddAuthor models edited).authors =
        edited.authors ++
          [{ models.ObservableAuthor with position := (edited.authors.length : Int) }] ∧
      (doEditAddAuthor models edited).authors.length = edited.authors.length + 1 ∧
      (∃ last, (doEditAddAuthor models edited).authors.getLast? = some last ∧
        last.position = ((doEditAddAuthor models edited).authors.length : Int) - 1 ∧
        last.position = (edited.authors.length : Int)) ∧
      (∀ i, i < edited.authors.length →
        (doEditAddAuthor models edited).authors[i]? = edited.authors[i]?) ∧
      doEditAddAuthor models edited =
        { edited with authors := (doEditAddAuthor models edited).authors }) ∧
    ((doEditAddAffiliation models edited).affiliations =
        edited.affiliations ++
          [{ models.ObservableAffiliation with
              position := (edited.affiliations.length : Int) }] ∧
      (doEditAddAffiliation models edited).affiliations.length =
        edited.affiliations.length + 1 ∧
      (∃ last, (doEditAddAffiliation models edited).affiliations.getLast? = some last ∧
        last.position = ((doEditAddAffiliation models edited).affiliations.length : Int) - 1 ∧
        last.position = (edited.affiliations.length : Int)) ∧
      (∀ i, i < edited.affiliations.length →
        (doEditAddAffiliation models edited).affiliations[i]? = edited.affiliations[i]?) ∧
      doEditAddAffiliation models edited =
        { edited with affiliations := (doEditAddAffiliation models edited).affiliations }) := by
  refine ⟨⟨rfl, ?_, ?_, ?_, rfl⟩, ⟨rfl, ?_, ?_, ?_, rfl⟩⟩
  · simp [doEditAddAuthor]
  · refine ⟨models.ObservableAuthor.setPosition (edited.authors.length : Int), ?_, ?_, rfl⟩
    · simp [doEditAddAuthor]
    · simp [doEditAddAuthor, Author.setPosition]
  · intro i hi
    simp only [doEditAddAuthor]
    exact List.getElem?_append_left hi
  · simp [doEditAddAffiliation]
  · refine ⟨models.ObservableAffiliation.setPosition (edited.affiliations.length : Int),
      ?_, ?_, rfl⟩
    · simp [doEditAddAffiliation]
    · simp [doEditAddAffiliation, Affiliation.setPosition]
  · intro i hi
    simp only [doEditAddAffiliation]
    exact List.getElem?_append_left hi

/-- C5 on `draftThree`: the prefix of three elements is kept. -/
theorem C5_insertAt_witness :
    (doEditAddAuthor blankModels draftThree).authors[1]? = draftThree.authors[1]? ∧
    (doEditAddAffiliation blankModels draftThree).affiliations[2]? =
      draftThree.affiliations[2]? :=
  ⟨(C5_insertAt blankModels draftThree).1.2.2.2.1 1 (by decide),
   (C5_insertAt blankModels draftThree).2.2.2.2.1 2 (by decide)⟩

/-! ## Author-affiliation links: auxiliary facts -/

theorem arrayIndexOf_neg_iff (l : List Int) (v : Int) : arrayIndexOf l v < 0 ↔ v ∉ l := by
  unfold arrayIndexOf
  by_cases h : v ∈ l
  · simp only [h, if_true, not_true_eq_false, iff_false]
    omega
  · simp [h]

theorem arrayIndexOf_of_mem (l : List Int) (v : Int) (h : v ∈ l) :
    arrayIndexOf l v = (List.indexOf v l : Int) := by
  simp [arrayIndexOf, h]

theorem splice1_arrayIndexOf (l : List Int) (v : Int) (h : v ∈ l) :
    splice1 l (arrayIndexOf l v) = l.erase v := by
  rw [arrayIndexOf_of_mem l v h, splice1_natCast, List.eraseIdx_indexOf_eq_erase]

theorem filter_ne_erase (q : Int) (l : List Int) :
    (l.erase q).filter (fun v => decide (v ≠ q)) = l.filter (fun v => decide (v ≠ q)) := by
  induction l with
  | nil => rfl
  | cons a l ih =>
    by_cases ha : a = q
    · subst ha
      simp
    · have hb : (a == q) = false := by simpa using ha
      rw [List.erase_cons, hb]
      have hfalse : ¬ (false = true) := by decide
      simp only [if_neg hfalse, List.filter_cons, ha, ne_eq, not_false_eq_true, decide_True,
        if_true]
      exact congrArg (List.cons a) ih

theorem removeWhilePresent_eq_filter (q : Int) (l : List Int) :
    removeWhilePresent q l = l.filter (fun v => decide (v ≠ q)) := by
  generalize hn : l.length = n
  induction n using Nat.strong_induction_on generalizing l with
  | _ n ih =>
    rw [removeWhilePresent]
    by_cases hm : q ∈ l
    · have hge : arrayIndexOf l q ≥ 0 := by
        have := arrayIndexOf_neg_iff l q
        by_contra hc
        exact (this.mp (by omega)) hm
      rw [dif_pos hge, splice1_arrayIndexOf l q hm]
      have hlen : (l.erase q).length < n := by
        rw [List.length_erase_of_mem hm, ← hn]
        have : 0 < l.length := List.length_pos_of_mem hm
        omega
      rw [ih _ hlen (l.erase q) rfl, filter_ne_erase]
    · have hlt : ¬ (arrayIndexOf l q ≥ 0) := by
        have := (arrayIndexOf_neg_iff l q).mpr hm
        omega
      rw [dif_neg hlt]
      symm
      rw [List.filter_eq_self]
      intro a ha
      have : a ≠ q := fun h => hm (h ▸ ha)
      simpa using this

theorem addLink_eq (models : Models) (authorPosition : Int) (affiliation : Affiliation)
    (edited : Abstract) (h0 : 0 ≤ authorPosition)
    (h1 : authorPosition < (edited.authors.length : Int)) (author : Author)
    (hget : edited.authors[authorPosition.toNat]? = some author) :
    doEditAddAuthorToAffiliation models authorPosition affiliation edited =
      if affiliation.position ∈ author.affiliations then { draft := edited, thrown := none }
      else
        { draft := { edited with
            authors := edited.authors.set authorPosition.toNat
              { author with affiliations := author.affiliations ++ [affiliation.position] } },
          thrown := none } := by
  have h : authorPosition ≥ 0 ∧ authorPosition < (edited.authors.length : Int) := ⟨h0, h1⟩
  have hlt : authorPosition.toNat < edited.authors.length := by omega
  have hauthor : edited.authors.get ⟨authorPosition.toNat, hlt⟩ = author := by
    rw [List.getElem?_eq_getElem hlt] at hget
    simpa using hget
  unfold doEditAddAuthorToAffiliation
  simp only [dif_pos h, hauthor]
  by_cases hm : affiliation.position ∈ author.affiliations
  · have : ¬ (arrayIndexOf author.affiliations affiliation.position < 0) := by
      rw [arrayIndexOf_neg_iff]; simpa using hm
    simp only [this, if_false, hm, if_true]
  · have : arrayIndexOf author.affiliations affiliation.position < 0 := by
      rw [arrayIndexOf_neg_iff]; exact hm
    simp only [this, if_true, hm, if_false]

/-- C8: for an in-range author selection `a` and an affiliation of position
`q`, `doEditAddAuthorToAffiliation` throws nothing, leaves the affiliation list
of author `a` unchanged if it already contains `q` and otherwise appends `q`
once; every other author and the rest of the draft are unchanged; performing
the operation a second time gives the same outcome as performing it once. -/
theorem C8_addLink_idempotent (models : Models) (authorPosition : Int)
    (affiliation : Affiliation) (edited : Abstract) (h0 : 0 ≤ authorPosition)
    (h1 : authorPosition < (edited.authors.length : Int)) :
    (doEditAddAuthorToAffiliation models authorPosition affiliation edited).thrown = none ∧
    (∃ author, edited.authors[authorPosition.toNat]? = some author ∧
      (doEditAddAuthorToAffiliation models authorPosition affiliation
          edited).draft.authors[authorPosition.toNat]? =
        some { author with
          affiliations :=
            if affiliation.position ∈ author.affiliations then author.affiliations
            else author.affiliations ++ [affiliation.position] }) ∧
    (∀ j, j ≠ authorPosition.toNat →
      (doEditAddAuthorToAffiliation models authorPosition affiliation
          edited).draft.authors[j]? = edited.authors[j]?) ∧
    (doEditAddAuthorToAffiliation models authorPosition affiliation edited).draft =
      { edited with
        authors := (doEditAddAuthorToAffiliation models authorPosition affiliation
          edited).draft.authors } ∧
    doEditAddAuthorToAffiliation models authorPosition affiliation
        (doEditAddAuthorToAffiliation models authorPosition affiliation edited).draft =
      doEditAddAuthorToAffiliation models authorPosition affiliation edited := by
  have hlt : authorPosition.toNat < edited.authors.length := by omega
  have hget : edited.authors[authorPosition.toNat]? =
      some (edited.authors[authorPosition.toNat]) := List.getElem?_eq_getElem hlt
  generalize edited.authors[authorPosition.toNat] = author at hget
  have heq := addLink_eq models authorPosition affiliation edited h0 h1 author hget
  by_cases hm : affiliation.position ∈ author.affiliations
  · rw [if_pos hm] at heq
    rw [heq]
    refine ⟨rfl, ⟨author, hget, ?_⟩, fun _ _ => rfl, rfl, heq⟩
    simp only [hm, if_true]
    exact hget
  · rw [if_neg hm] at heq
    rw [heq]
    refine ⟨rfl, ⟨author, hget, ?_⟩, ?_, rfl, ?_⟩
    · simp only [hm, if_false]
      exact List.getElem?_set_self hlt
    · intro j hj
      exact List.getElem?_set_ne (Ne.symm hj)
    · have hget2 : (edited.authors.set authorPosition.toNat
          { author with affiliations := author.affiliations ++ [affiliation.position] })[
            authorPosition.toNat]? =
          some { author with affiliations := author.affiliations ++ [affiliation.position] } :=
        List.getElem?_set_self hlt
      have h1b : authorPosition <
          (({ edited with
            authors := edited.authors.set authorPosition.toNat
              { author with affiliations := author.affiliations ++ [affiliation.position] } } :
            Abstract).authors.length : Int) := by
        simp only [List.length_set]
        exact h1
      rw [addLink_eq models authorPosition affiliation _ h0 h1b _ hget2]
      simp

/-- C8 on the draft with one author linked to nothing: the link to `F1` is
added once, and adding it again changes nothing. -/
theorem C8_addLink_idempotent_witness :
    (doEditAddAuthorToAffiliation blankModels 0 affiliationF1 (draftWithLinks [])).thrown =
      none ∧
    doEditAddAuthorToAffiliation blankModels 0 affiliationF1
        (doEditAddAuthorToAffiliation blankModels 0 affiliationF1 (draftWithLinks [])).draft =
      doEditAddAuthorToAffiliation blankModels 0 affiliationF1 (draftWithLinks []) ∧
    (doEditAddAuthorToAffiliation blankModels 0 affiliationF1
        (draftWithLinks [])).draft.authors.map (fun a => a.affiliations) = [[1]] :=
  ⟨(C8_addLink_idempotent blankModels 0 affiliationF1 (draftWithLinks [])
      (by decide) (by decide)).1,
   (C8_addLink_idempotent blankModels 0 affiliationF1 (draftWithLinks [])
      (by decide) (by decide)).2.2.2.2,
   by decide⟩

/-! ## C9: adding a link with an author selection out of range -/

/-- C10: `doEditRemoveAffiliationFromAuthor` (a total function: its loop
terminates) leaves the author's affiliation list equal to the original list
with every occurrence of the affiliation's position removed and all other
values kept in their original order, duplicates in the list allowed; the other
fields of the author are unchanged. -/
theorem C10_removeLink (affiliation : Affiliation) (author : Author) :
    (doEditRemoveAffiliationFromAuthor affiliation author).affiliations =
      author.affiliations.filter (fun v => decide (v ≠ affiliation.position)) ∧
    affiliation.position ∉ (doEditRemoveAffiliationFromAuthor affiliation author).affiliations ∧
    (doEditRemoveAffiliationFromAuthor affiliation author).position = author.position ∧
    (doEditRemoveAffiliationFromAuthor affiliation author).name = author.name := by
  have h : (doEditRemoveAffiliationFromAuthor affiliation author).affiliations =
      author.affiliations.filter (fun v => decide (v ≠ affiliation.position)) :=
    removeWhilePresent_eq_filter affiliation.position author.affiliations
  refine ⟨h, ?_, rfl, rfl⟩
  rw [h]
  simp [List.mem_filter]

/-! ## Link validity under the operations other than `doEditRemoveAffiliation` -/

theorem forEachSetPosition_author_mem (k : Nat) (l : List Author) (a : Author)
    (ha : a ∈ forEachSetPosition Author.setPosition k l) :
    ∃ b ∈ l, a.affiliations = b.affiliations := by
  induction l generalizing k with
  | nil => simp [forEachSetPosition] at ha
  | cons b l ih =>
    simp only [forEachSetPosition, List.mem_cons] at ha
    rcases ha with h | h
    · exact ⟨b, List.mem_cons_self _ _, by rw [h]; rfl⟩
    · obtain ⟨c, hc, hca⟩ := ih (k + 1) h
      exact ⟨c, List.mem_cons_of_mem _ hc, hca⟩

theorem splice1_subset {α : Type} (l : List α) (start : Int) (a : α)
    (ha : a ∈ splice1 l start) : a ∈ l := by
  unfold splice1 at ha
  exact (List.eraseIdx_sublist l _).subset ha

/-- Link validity is kept by `doEditAddAuthor` (when the constructor of
`lib/models` gives an author without links), `doEditRemoveAuthor`,
`doEditAddAffiliation`, `doEditAddAuthorToAffiliation` (for an affiliation whose
position is in range) and `doEditRemoveAffiliationFromAuthor`. -/
theorem linksValid_other_operations (models : Models) (edited : Abstract)
    (hv : linksValid edited) :
    (models.ObservableAuthor.affiliations = [] → linksValid (doEditAddAuthor models edited)) ∧
    (∀ x : Author, linksValid (doEditRemoveAuthor x edited)) ∧
    linksValid (doEditAddAffiliation models edited) ∧
    (∀ (authorPosition : Int) (affiliation : Affiliation), 0 ≤ affiliation.position →
      affiliation.position < (edited.affiliations.length : Int) →
      linksValid (doEditAddAuthorToAffiliation models authorPosition affiliation edited).draft) ∧
    (∀ (affiliation : Affiliation) (author : Author), author ∈ edited.authors →
      (∀ v ∈ (doEditRemoveAffiliationFromAuthor affiliation author).affiliations,
        0 ≤ v ∧ v < (edited.affiliations.length : Int)) ∧
      (doEditRemoveAffiliationFromAuthor affiliation author).affiliations.Nodup) := by
  unfold linksValid at hv
  refine ⟨?_, ?_, ?_, ?_, ?_⟩
  · intro hblank author hmem
    simp only [doEditAddAuthor, List.mem_append, List.mem_singleton] at hmem
    rcases hmem with h | h
    · exact hv author h
    · subst h
      simp [Author.setPosition, hblank]
  · intro x author hmem
    simp only [doEditRemoveAuthor] at hmem
    obtain ⟨b, hb, hab⟩ := forEachSetPosition_author_mem 0 _ author hmem
    have hb2 := splice1_subset _ _ _ hb
    rw [hab]
    exact hv b hb2
  · intro author hmem
    have h := hv author hmem
    refine ⟨fun v hvmem => ?_, h.2⟩
    have := h.1 v hvmem
    simp only [doEditAddAffiliation, List.length_append, List.length_singleton]
    push_cast
    omega
  · intro authorPosition affiliation hq0 hq1
    by_cases hin : 0 ≤ authorPosition ∧ authorPosition < (edited.authors.length : Int)
    · have hlt : authorPosition.toNat < edited.authors.length := by omega
      rw [addLink_eq models authorPosition affiliation edited hin.1 hin.2 _
        (List.getElem?_eq_getElem hlt)]
      have hold := hv _ (List.getElem_mem hlt)
      split
      · exact hv
      · rename_i hnot
        intro author hmem
        rcases List.mem_or_eq_of_mem_set hmem with h | h
        · exact hv author h
        · subst h
          refine ⟨fun v hvmem => ?_, ?_⟩
          · simp only [List.mem_append, List.mem_singleton] at hvmem
            rcases hvmem with h2 | h2
            · exact hold.1 v h2
            · subst h2
              exact ⟨hq0, hq1⟩
          · simp only
            rw [List.nodup_append]
            refine ⟨hold.2, List.nodup_singleton _, ?_⟩
            intro v h1 h2
            simp only [List.mem_singleton] at h2
            subst h2
            exact hnot h1
    · have hneg : ¬ (authorPosition ≥ 0 ∧ authorPosition < (edited.authors.length : Int)) := hin
      unfold doEditAddAuthorToAffiliation
      simp only [dif_neg hneg]
      exact hv
  · intro affiliation author hmem
    have h := hv author hmem
    have heq : (doEditRemoveAffiliationFromAuthor affiliation author).affiliations =
        author.affiliations.filter (fun v => decide (v ≠ affiliation.position)) :=
      removeWhilePresent_eq_filter affiliation.position author.affiliations
    rw [heq]
    exact ⟨fun v hvmem => h.1 v (List.mem_of_mem_filter hvmem), h.2.filter _⟩

/-! ## C1, C2: removing an affiliation and the links of the authors -/

/-- C1 at a failing input: on the draft with the affiliations `F0`, `F1` and
one author linked to position 0 only, `doEditRemoveAffiliation` of `F1`
(position 1) turns the author's link 0 into -1, although 0 is below the removed
position; the scenario of the specification (author linked to 1, `F0` removed)
does give the list `[0]`. -/
theorem C1_removeAffiliation_shifts_lower_link :
    affiliationF1 ∈ (draftWithLinks [0]).affiliations ∧
    (doEditRemoveAffiliation affiliationF1 (draftWithLinks [0])).authors.map
      (fun a => a.affiliations) = [[-1]] ∧
    (doEditRemoveAffiliation affiliationF0 (draftWithLinks [1])).authors.map
      (fun a => a.affiliations) = [[0]] := by
  decide

/-- C2 at a failing input: the links of the draft with the affiliations `F0`,
`F1` and one author linked to position 0 are valid, and after
`doEditRemoveAffiliation` of `F1`, an affiliation of the list, they are not. -/
theorem C2_removeAffiliation_breaks_linksValid :
    linksValid (draftWithLinks [0]) ∧
    Contiguous ((draftWithLinks [0]).affiliations.map (fun a => a.position)) ∧
    affiliationF1 ∈ (draftWithLinks [0]).affiliations ∧
    ¬ linksValid (doEditRemoveAffiliation affiliationF1 (draftWithLinks [0])) := by
  decide

/-! ## C19: the buttons together -/

/-- C19: for every state of the view model `showButtonSubmit` and
`showButtonWithdraw` are never both true, and whenever `showButtonSubmit` is
true `showButtonSave` is true as well. -/
theorem C19_buttons_consistent (self : EditorViewModel) :
    ¬ (showButtonSubmit self = true ∧ showButtonWithdraw self = true) ∧
    (showButtonSubmit self = true → showButtonSave self = true) := by
  obtain ⟨abstract, editedAbstract, saved⟩ := self
  cases abstract with
  | none => simp [showButtonSave, showButtonSubmit, showButtonWithdraw]
  | some a =>
    constructor
    · simp only [showButtonSubmit, showButtonWithdraw, Bool.and_eq_true, Bool.or_eq_true,
        Bool.not_eq_true', decide_eq_true_eq, truthy_eq_false_iff, stateEmpty,
        List.mem_cons, List.mem_singleton, List.not_mem_nil, or_false]
      rintro ⟨⟨_, h1⟩, _, h2⟩
      rcases h1 with (h1 | h1) | h1 <;> rcases h2 with h2 | h2 <;> rw [h1] at h2 <;>
        simp at h2
    · simp only [showButtonSubmit, showButtonSave, Bool.and_eq_true, Bool.or_eq_true,
        Bool.not_eq_true', decide_eq_true_eq]
      rintro ⟨_, h⟩
      rcases h with h | h
      · exact Or.inl (Or.inr h)
      · exact Or.inr h

/-- C19 on a saved abstract in preparation: submit is offered, so is save. -/
theorem C19_buttons_consistent_witness :
    showButtonSubmit (savedSession (some "InPreparation")).view = true ∧
    showButtonSave (savedSession (some "InPreparation")).view = true :=
  ⟨by decide,
   (C19_buttons_consistent (savedSession (some "InPreparation")).view).2 (by decide)⟩

/-! ## C20: the authors of an affiliation -/

theorem getEditorAuthors_foldl (pos : Int) (l acc : List Author) :
    l.foldl
      (fun authors author =>
        if arrayIndexOf author.affiliations pos ≥ 0 then authors ++ [author] else authors)
      acc =
    acc ++ l.filter (fun a => decide (pos ∈ a.affiliations)) := by
  induction l generalizing acc with
  | nil => simp
  | cons a l ih =>
    rw [List.foldl_cons, ih]
    by_cases hm : pos ∈ a.affiliations
    · have hge : arrayIndexOf a.affiliations pos ≥ 0 := by
        by_contra hc
        exact ((arrayIndexOf_neg_iff _ _).mp (by omega)) hm
      simp [hge, hm]
    · have hlt : ¬ (arrayIndexOf a.affiliations pos ≥ 0) := by
        have := (arrayIndexOf_neg_iff _ _).mpr hm
        omega
      simp [hlt, hm]

/-- C20: `getEditorAuthorsForAffiliation` returns exactly the authors of the
draft whose affiliation list contains the position of the affiliation, in the
order of the draft's author list and each no more often than it occurs there;
it is a function of the draft and returns no changed draft. -/
theorem C20_authorsForAffiliation (affiliation : Affiliation) (edited : Abstract) :
    getEditorAuthorsForAffiliation affiliation edited =
      edited.authors.filter (fun a => decide (affiliation.position ∈ a.affiliations)) ∧
    (∀ a, a ∈ getEditorAuthorsForAffiliation affiliation edited ↔
      a ∈ edited.authors ∧ affiliation.position ∈ a.affiliations) ∧
    (getEditorAuthorsForAffiliation affiliation edited).Sublist edited.authors ∧
    (∀ a, (getEditorAuthorsForAffiliation affiliation edited).count a ≤
      edited.authors.count a) := by
  have h : getEditorAuthorsForAffiliation affiliation edited =
      edited.authors.filter (fun a => decide (affiliation.position ∈ a.affiliations)) := by
    unfold getEditorAuthorsForAffiliation
    simpa using getEditorAuthors_foldl affiliation.position edited.authors []
  refine ⟨h, ?_, ?_, ?_⟩
  · intro a
    rw [h]
    simp [List.mem_filter]
  · rw [h]
    exact List.filter_sublist _
  · intro a
    rw [h]
    exact (List.filter_sublist _).count_le a

/-! ## C18: the reference list -/

/-- C18, as the code has it: `doEditAddReference` appends the reference that the
constructor of `lib/models` gives, as it is (no position is assigned), and
`doEditRemoveReference` deletes the reference at the given index and leaves
the others, their order and their positions as they are (no renumbering); the
rest of the draft is unchanged. -/
theorem C18_references_not_renumbered (models : Models) (edited : Abstract) (index : Nat) :
    doEditAddReference models edited =
      { edited with references := edited.references ++ [models.ObservableReference] } ∧
    (doEditAddReference models edited).references.getLast? =
      some models.ObservableReference ∧
    doEditRemoveReference (index : Int) edited =
      { edited with references := edited.references.eraseIdx index } ∧
    (∀ i, i < index →
      (doEditRemoveReference (index : Int) edited).references[i]? = edited.references[i]?) ∧
    (∀ i, index ≤ i →
      (doEditRemoveReference (index : Int) edited).references[i]? =
        edited.references[i + 1]?) := by
  have hrem : doEditRemoveReference (index : Int) edited =
      { edited with references := edited.references.eraseIdx index } := by
    simp only [doEditRemoveReference, splice1_natCast]
  refine ⟨rfl, ?_, hrem, ?_, ?_⟩
  · simp [doEditAddReference]
  · intro i hi
    rw [hrem]
    exact List.getElem?_eraseIdx_of_lt _ _ _ hi
  · intro i hi
    rw [hrem]
    exact List.getElem?_eraseIdx_of_ge _ _ _ hi

/-- C18 on the draft with three references, removing the one at index 1: the
reference before it stays at index 0, the one after it moves to index 1 and
keeps its position 2. -/
theorem C18_references_not_renumbered_witness :
    (doEditRemoveReference 1 draftThreeReferences).references[0]? =
      some { position := 0, text := "R0" } ∧
    (doEditRemoveReference 1 draftThreeReferences).references[1]? =
      some { position := 2, text := "R2" } :=
  ⟨(C18_references_not_renumbered blankModels draftThreeReferences 1).2.2.2.1 0 (by decide),
   (C18_references_not_renumbered blankModels draftThreeReferences 1).2.2.2.2 1 (by decide)⟩

/-- C18 is false as stated: on the draft with the references of positions 0, 1,
2, `doEditAddReference` appends a reference of position 0, not 3, and after
`doEditRemoveReference(0)` the references at indices 0 and 1 have positions 1
and 2. -/
theorem C18_references_counterexample :
    (doEditAddReference blankModels draftThreeReferences).references.map
      (fun r => r.position) = [0, 1, 2, 0] ∧
    ¬ Contiguous ((doEditAddReference blankModels draftThreeReferences).references.map
      (fun r => r.position)) ∧
    (doEditRemoveReference 0 draftThreeReferences).references.map
      (fun r => r.position) = [1, 2] ∧
    ¬ Contiguous ((doEditRemoveReference 0 draftThreeReferences).references.map
      (fun r => r.position)) := by
  decide

/-! ## The session: auxiliary facts -/

theorem ajaxSave_thrown (env : Env) (call : StoreCall) (s : Session) :
    (ajaxSave env call s).thrown = none := by
  unfold ajaxSave
  cases env.respond call <;> rfl

theorem ajaxSave_calls (env : Env) (call : StoreCall) (s : Session) :
    (ajaxSave env call s).session.calls = s.calls ++ [call] := by
  unfold ajaxSave
  cases env.respond call <;> rfl

theorem ajaxSave_fail (env : Env) (call : StoreCall) (s : Session)
    (h : env.respond call = none) :
    ajaxSave env call s =
      { session := { s with calls := s.calls ++ [call] }, thrown := none } := by
  unfold ajaxSave
  rw [h]

theorem ajaxSave_success (env : Env) (call : StoreCall) (s : Session) (obj : Abstract)
    (h : env.respond call = some obj) :
    ajaxSave env call s =
      { session :=
          { objects := s.objects ++ [obj], conference := s.conference,
            abstract := some s.objects.length, editedAbstract := s.editedAbstract,
            isAbstractSaved := true, calls := s.calls ++ [call] },
        thrown := none } := by
  unfold ajaxSave
  rw [h]
  rfl

theorem update_saved (s : Session) (r : Nat) (a b : Abstract) (hr : s.abstract = some r)
    (ha : s.objects[r]? = some a) : (s.update r b).saved = some b := by
  have hlt : r < s.objects.length := (List.getElem?_eq_some.mp ha).1
  simp only [Session.saved, Session.update, hr, Session.deref]
  exact List.getElem?_set_self hlt

theorem setStateAndSave_eq (env : Env) (value : String) (s : Session) (r : Nat)
    (a : Abstract) (hr : s.abstract = some r) (ha : s.objects[r]? = some a)
    (hs : s.isAbstractSaved = true) :
    setStateAndSave env value s =
      ajaxSave env (StoreCall.put a.uuid { a with state := some value })
        (s.update r { a with state := some value }) := by
  have hsaved := update_saved s r a { a with state := some value } hr ha
  have hflag : (s.update r { a with state := some value }).isAbstractSaved = true := hs
  unfold setStateAndSave
  simp only [hr, ha]
  unfold doSaveAbstract
  simp only [hsaved, hflag, if_true]

theorem doSaveAbstract_shape (env : Env) (arg : Option Abstract) (s : Session) :
    (∃ t, doSaveAbstract env arg s = { session := s, thrown := some t }) ∨
    (∃ call, doSaveAbstract env arg s = ajaxSave env call s) := by
  unfold doSaveAbstract
  cases arg <;> cases s.saved <;> dsimp only <;> (repeat' split) <;>
    first
    | exact Or.inl ⟨_, rfl⟩
    | exact Or.inr ⟨_, rfl⟩

theorem doSaveAbstract_fail (env : Env) (arg : Option Abstract) (s : Session)
    (hfail : ∀ call, env.respond call = none) :
    (doSaveAbstract env arg s).session =
        { s with calls := (doSaveAbstract env arg s).session.calls } ∧
      ((doSaveAbstract env arg s).session.calls ≠ s.calls →
        (doSaveAbstract env arg s).thrown = none) := by
  rcases doSaveAbstract_shape env arg s with ⟨t, ht⟩ | ⟨call, hcall⟩
  · rw [ht]
    exact ⟨rfl, fun h => absurd rfl h⟩
  · rw [hcall, ajaxSave_fail _ _ _ (hfail _)]
    exact ⟨rfl, fun _ => rfl⟩

theorem setStateAndSave_fail (env : Env) (value : String) (s : Session) (r : Nat)
    (a : Abstract) (hr : s.abstract = some r) (ha : s.objects[r]? = some a)
    (hfail : ∀ call, env.respond call = none) :
    (setStateAndSave env value s).session =
        { s.update r { a with state := some value } with
          calls := (setStateAndSave env value s).session.calls } ∧
      ((setStateAndSave env value s).session.calls ≠ s.calls →
        (setStateAndSave env value s).thrown = none) := by
  have hsaved := update_saved s r a { a with state := some value } hr ha
  have e : setStateAndSave env value s =
      doSaveAbstract env (some { a with state := some value })
        (s.update r { a with state := some value }) := by
    unfold setStateAndSave
    simp only [hr, ha, hsaved]
  rw [e]
  have h := doSaveAbstract_fail env (some { a with state := some value })
    (s.update r { a with state := some value }) hfail
  exact ⟨h.1, fun hne => h.2 hne⟩

/-! ## C14: ending an edit before the first save -/

/-- C14: with `isAbstractSaved` false, `doEndEdit` makes the saved abstract the
draft (the observable `abstract` holds the draft object), sends no request to
the Record Store, throws nothing, and leaves `isAbstractSaved` false and the
draft unchanged. -/
theorem C14_endEdit_unsaved (env : Env) (s : Session) (h : s.isAbstractSaved = false) :
    (doEndEdit env s).thrown = none ∧
    (doEndEdit env s).session.abstract = s.editedAbstract ∧
    (doEndEdit env s).session.saved = s.draft ∧
    (doEndEdit env s).session.draft = s.draft ∧
    (doEndEdit env s).session.editedAbstract = s.editedAbstract ∧
    (doEndEdit env s).session.objects = s.objects ∧
    (doEndEdit env s).session.calls = s.calls ∧
    (doEndEdit env s).session.isAbstractSaved = false := by
  have e : doEndEdit env s =
      { session := { s with abstract := s.editedAbstract }, thrown := none } := by
    unfold doEndEdit
    rw [if_neg (by simp [h])]
  rw [e]
  exact ⟨rfl, rfl, rfl, rfl, rfl, rfl, rfl, h⟩

/-- C14 on a session that was initialised without ids, opened for editing and
given an author: the saved abstract becomes the draft with its author and no
request is sent. -/
theorem C14_endEdit_unsaved_witness :
    (doEndEdit failingEnv
      (runEditOp failingEnv .addAuthor
        (doStartEdit (init failingEnv Session.initial)).session)).session.saved =
      (runEditOp failingEnv .addAuthor
        (doStartEdit (init failingEnv Session.initial)).session).draft ∧
    (doEndEdit failingEnv
      (runEditOp failingEnv .addAuthor
        (doStartEdit (init failingEnv Session.initial)).session)).session.calls = [] :=
  ⟨(C14_endEdit_unsaved failingEnv
      (runEditOp failingEnv .addAuthor
        (doStartEdit (init failingEnv Session.initial)).session) (by decide)).2.2.1,
   (C14_endEdit_unsaved failingEnv
      (runEditOp failingEnv .addAuthor
        (doStartEdit (init failingEnv Session.initial)).session) (by decide)).2.2.2.2.2.2.1⟩

/-! ## C16: the initial load without an abstract id -/

/-- C16, as the code has it: after `init` without an abstract id, `abstract`
and `editedAbstract` hold one and the same blank abstract (the saved abstract
is not `null`), `isAbstractSaved` is false and no request was sent to the
Record Store for saving. -/
theorem C16_init_without_abstract_id (env : Env) (h : truthyValue env.abstrId = none) :
    (init env Session.initial).draft = some env.models.ObservableAbstract ∧
    (init env Session.initial).saved = some env.models.ObservableAbstract ∧
    (init env Session.initial).abstract = (init env Session.initial).editedAbstract ∧
    (init env Session.initial).abstract = some 0 ∧
    (init env Session.initial).isAbstractSaved = false ∧
    (init env Session.initial).calls = [] := by
  cases hc : truthyValue env.confId with
  | none =>
    simp [init, h, hc, Session.alloc, Session.initial, Session.draft, Session.saved,
      Session.deref]
  | some c =>
    cases hf : env.fetchConference c <;>
      simp [init, h, hc, hf, requestConference, Session.alloc, Session.initial,
        Session.draft, Session.saved, Session.deref]

/-- C16 for a view model constructed with a conference id only. -/
theorem C16_init_without_abstract_id_witness :
    truthyValue failingEnv.abstrId = none ∧
    (init failingEnv Session.initial).saved = some blankModels.ObservableAbstract ∧
    (init failingEnv Session.initial).isAbstractSaved = false :=
  ⟨by decide, (C16_init_without_abstract_id failingEnv (by decide)).2.1,
   (C16_init_without_abstract_id failingEnv (by decide)).2.2.2.2.1⟩

/-- C16 is false as stated: after `init` without an abstract id the saved
abstract is not `null`. -/
theorem C16_saved_not_null_counterexample :
    truthyValue failingEnv.abstrId = none ∧
    (init failingEnv Session.initial).abstract ≠ none ∧
    (init failingEnv Session.initial).saved ≠ none := by
  decide

/-! ## Saving, submitting and withdrawing: auxiliary facts -/

theorem view_abstract (s : Session) (r : Nat) (a : Abstract) (hr : s.abstract = some r)
    (ha : s.objects[r]? = some a) : s.view.abstract = some a := by
  simp only [Session.view, Session.saved, hr, Session.deref, ha]

theorem ajaxSave_objects (env : Env) (call : StoreCall) (s : Session) (r : Nat)
    (hr : r < s.objects.length) :
    (ajaxSave env call s).session.objects[r]? = s.objects[r]? := by
  cases h : env.respond call with
  | none => rw [ajaxSave_fail _ _ _ h]
  | some obj =>
    rw [ajaxSave_success _ _ _ _ h]
    exact List.getElem?_append_left hr

theorem setStateAndSave_saved (env : Env) (value : String) (s : Session) (r : Nat)
    (a : Abstract) (hr : s.abstract = some r) (ha : s.objects[r]? = some a)
    (hs : s.isAbstractSaved = true) :
    (setStateAndSave env value s).thrown = none ∧
    (setStateAndSave env value s).session.calls =
      s.calls ++ [StoreCall.put a.uuid { a with state := some value }] ∧
    (setStateAndSave env value s).session.objects[r]? =
      some { a with state := some value } := by
  have hlt : r < s.objects.length := (List.getElem?_eq_some.mp ha).1
  rw [setStateAndSave_eq env value s r a hr ha hs]
  refine ⟨ajaxSave_thrown _ _ _, ajaxSave_calls _ _ _, ?_⟩
  rw [ajaxSave_objects _ _ _ r (by simpa [Session.update] using hlt)]
  simp only [Session.update]
  exact List.getElem?_set_self hlt

theorem showButtonSubmit_gate (s : Session) (r : Nat) (a : Abstract)
    (hr : s.abstract = some r) (ha : s.objects[r]? = some a)
    (h : ¬ (stateEmpty a.state ∨ a.state = some "InPreparation")) :
    showButtonSubmit s.view = false := by
  have hv := view_abstract s r a hr ha
  have ht := truthy_eq_false_iff a.state
  unfold showButtonSubmit
  rw [hv]
  simp only [Bool.and_eq_false_iff, Bool.or_eq_false_iff, Bool.not_eq_false',
    decide_eq_false_iff_not]
  right
  constructor
  · cases htr : truthy a.state with
    | true => rfl
    | false => exact absurd (Or.inl (ht.mp htr)) h
  · exact fun h2 => h (Or.inr h2)

theorem showButtonWithdraw_gate (s : Session) (r : Nat) (a : Abstract)
    (hr : s.abstract = some r) (ha : s.objects[r]? = some a)
    (h : ¬ (a.state = some "Submitted" ∨ a.state = some "InReview")) :
    showButtonWithdraw s.view = false := by
  have hv := view_abstract s r a hr ha
  unfold showButtonWithdraw
  rw [hv]
  simp only [Bool.and_eq_false_iff, decide_eq_false_iff_not, List.mem_cons,
    List.mem_singleton, List.not_mem_nil, or_false]
  exact Or.inr h

/-! ## C11: transitions out of a state that does not allow them -/

/-- C11, as the code has it: `doSubmitAbstract` and `doWithdrawAbstract` do not
look at the current state. For every saved abstract, whatever its state, they
throw nothing, write the state `Submitted` (resp. `Withdrawn`) into the saved
abstract and send one update carrying it. A transition from a state that does
not allow it is only kept away by the buttons: `showButtonSubmit` is false when
the state is neither empty nor `InPreparation`, `showButtonWithdraw` is false
when the state is neither `Submitted` nor `InReview`. -/
theorem C11_transitions_unchecked (env : Env) (s : Session) (r : Nat) (a : Abstract)
    (hr : s.abstract = some r) (ha : s.objects[r]? = some a)
    (hs : s.isAbstractSaved = true) :
    ((doSubmitAbstract env s).thrown = none ∧
      (doSubmitAbstract env s).session.calls =
        s.calls ++ [StoreCall.put a.uuid { a with state := some "Submitted" }] ∧
      (doSubmitAbstract env s).session.objects[r]? =
        some { a with state := some "Submitted" }) ∧
    ((doWithdrawAbstract env s).thrown = none ∧
      (doWithdrawAbstract env s).session.calls =
        s.calls ++ [StoreCall.put a.uuid { a with state := some "Withdrawn" }] ∧
      (doWithdrawAbstract env s).session.objects[r]? =
        some { a with state := some "Withdrawn" }) ∧
    (¬ (stateEmpty a.state ∨ a.state = some "InPreparation") →
      showButtonSubmit s.view = false) ∧
    (¬ (a.state = some "Submitted" ∨ a.state = some "InReview") →
      showButtonWithdraw s.view = false) :=
  ⟨setStateAndSave_saved env "Submitted" s r a hr ha hs,
   setStateAndSave_saved env "Withdrawn" s r a hr ha hs,
   showButtonSubmit_gate s r a hr ha,
   showButtonWithdraw_gate s r a hr ha⟩

/-- C11 on a saved abstract that is withdrawn: submitting it throws nothing and
sends the update, and the submit button is not shown. -/
theorem C11_transitions_unchecked_witness :
    (doSubmitAbstract failingEnv (savedSession (some "Withdrawn"))).thrown = none ∧
    (doSubmitAbstract failingEnv (savedSession (some "Withdrawn"))).session.calls =
      [StoreCall.put (some "u1") (abstractInState (some "Submitted"))] ∧
    showButtonSubmit (savedSession (some "Withdrawn")).view = false ∧
    showButtonWithdraw (savedSession (some "Withdrawn")).view = false :=
  ⟨(C11_transitions_unchecked failingEnv (savedSession (some "Withdrawn")) 0
      (abstractInState (some "Withdrawn")) rfl rfl rfl).1.1,
   (C11_transitions_unchecked failingEnv (savedSession (some "Withdrawn")) 0
      (abstractInState (some "Withdrawn")) rfl rfl rfl).1.2.1,
   (C11_transitions_unchecked failingEnv (savedSession (some "Withdrawn")) 0
      (abstractInState (some "Withdrawn")) rfl rfl rfl).2.2.1 (by decide),
   (C11_transitions_unchecked failingEnv (savedSession (some "Withdrawn")) 0
      (abstractInState (some "Withdrawn")) rfl rfl rfl).2.2.2 (by decide)⟩

/-- C11 is false as stated: `doSubmitAbstract` on a saved abstract in state
`Withdrawn` throws nothing and leaves it in state `Submitted`, and
`doWithdrawAbstract` on a saved abstract in state `InPreparation` throws
nothing and leaves it in state `Withdrawn`. -/
theorem C11_illegal_transition_counterexample :
    (savedSession (some "Withdrawn")).saved.map (fun a => a.state) =
      some (some "Withdrawn") ∧
    (doSubmitAbstract echoEnv (savedSession (some "Withdrawn"))).thrown = none ∧
    (doSubmitAbstract echoEnv (savedSession (some "Withdrawn"))).session.saved.map
      (fun a => a.state) = some (some "Submitted") ∧
    (doWithdrawAbstract echoEnv (savedSession (some "InPreparation"))).thrown = none ∧
    (doWithdrawAbstract echoEnv (savedSession (some "InPreparation"))).session.saved.map
      (fun a => a.state) = some (some "Withdrawn") := by
  decide

/-! ## C12: a request that the Record Store rejects -/

/-- C12, as the code has it: when the Record Store rejects the request,
`doSaveAbstract` and `doEndEdit` (with `isAbstractSaved` true) change nothing
but the list of requests sent and throw nothing; `doSubmitAbstract` and
`doWithdrawAbstract` throw nothing either and leave `isAbstractSaved` and the
observables as they were, but the saved abstract keeps the state `Submitted`
(resp. `Withdrawn`) written into it before the request: it is not restored. -/
theorem C12_persistence_failure (env : Env) (s : Session)
    (hfail : ∀ call, env.respond call = none) :
    (∀ arg, (doSaveAbstract env arg s).session =
        { s with calls := (doSaveAbstract env arg s).session.calls } ∧
      ((doSaveAbstract env arg s).session.calls ≠ s.calls →
        (doSaveAbstract env arg s).thrown = none)) ∧
    (s.isAbstractSaved = true →
      (doEndEdit env s).session = { s with calls := (doEndEdit env s).session.calls } ∧
      ((doEndEdit env s).session.calls ≠ s.calls → (doEndEdit env s).thrown = none)) ∧
    (∀ r a, s.abstract = some r → s.objects[r]? = some a →
      ((doSubmitAbstract env s).session =
          { s.update r { a with state := some "Submitted" } with
            calls := (doSubmitAbstract env s).session.calls } ∧
        (doSubmitAbstract env s).session.saved = some { a with state := some "Submitted" } ∧
        ((doSubmitAbstract env s).session.calls ≠ s.calls →
          (doSubmitAbstract env s).thrown = none)) ∧
      ((doWithdrawAbstract env s).session =
          { s.update r { a with state := some "Withdrawn" } with
            calls := (doWithdrawAbstract env s).session.calls } ∧
        (doWithdrawAbstract env s).session.saved = some { a with state := some "Withdrawn" } ∧
        ((doWithdrawAbstract env s).session.calls ≠ s.calls →
          (doWithdrawAbstract env s).thrown = none))) := by
  refine ⟨fun arg => doSaveAbstract_fail env arg s hfail, ?_, ?_⟩
  · intro hs
    have e : doEndEdit env s = doSaveAbstract env s.draft s := by
      unfold doEndEdit
      rw [if_pos hs]
    rw [e]
    exact doSaveAbstract_fail env s.draft s hfail
  · intro r a hr ha
    have key : ∀ value : String,
        (setStateAndSave env value s).session =
          { s.update r { a with state := some value } with
            calls := (setStateAndSave env value s).session.calls } ∧
        (setStateAndSave env value s).session.saved = some { a with state := some value } ∧
        ((setStateAndSave env value s).session.calls ≠ s.calls →
          (setStateAndSave env value s).thrown = none) := by
      intro value
      have h := setStateAndSave_fail env value s r a hr ha hfail
      refine ⟨h.1, ?_, h.2⟩
      rw [h.1]
      exact update_saved s r a { a with state := some value } hr ha
    exact ⟨key "Submitted", key "Withdrawn"⟩

/-- C12 on a saved abstract in preparation whose update is rejected: saving
changes nothing, submitting leaves the state `Submitted`. -/
theorem C12_persistence_failure_witness :
    (doSaveAbstract failingEnv none (savedSession (some "InPreparation"))).session.saved =
      (savedSession (some "InPreparation")).saved ∧
    (doEndEdit failingEnv (savedSession (some "InPreparation"))).session.saved =
      (savedSession (some "InPreparation")).saved ∧
    (doSubmitAbstract failingEnv (savedSession (some "InPreparation"))).session.saved =
      some { abstractInState (some "InPreparation") with state := some "Submitted" } :=
  ⟨Eq.trans (congrArg Session.saved
    ((C12_persistence_failure failingEnv (savedSession (some "InPreparation"))
      (fun _ => rfl)).1 none).1) rfl,
   Eq.trans (congrArg Session.saved
    ((C12_persistence_failure failingEnv (savedSession (some "InPreparation"))
      (fun _ => rfl)).2.1 rfl).1) rfl,
   (((C12_persistence_failure failingEnv (savedSession (some "InPreparation"))
      (fun _ => rfl)).2.2 0 (abstractInState (some "InPreparation")) rfl rfl).1).2.1⟩

/-- C12 is false as stated: the Record Store rejects the update that
`doSubmitAbstract` sends for a saved abstract in preparation, nothing is
thrown, and the saved abstract is afterwards in state `Submitted`. -/
theorem C12_submit_failure_counterexample :
    (∀ call, failingEnv.respond call = none) ∧
    (doSubmitAbstract failingEnv (savedSession (some "InPreparation"))).session.calls =
      [StoreCall.put (some "u1") (abstractInState (some "Submitted"))] ∧
    (doSubmitAbstract failingEnv (savedSession (some "InPreparation"))).thrown = none ∧
    (savedSession (some "InPreparation")).saved.map (fun a => a.state) =
      some (some "InPreparation") ∧
    (doSubmitAbstract failingEnv (savedSession (some "InPreparation"))).session.saved.map
      (fun a => a.state) = some (some "Submitted") ∧
    (doSubmitAbstract failingEnv (savedSession (some "InPreparation"))).session.saved ≠
      (savedSession (some "InPreparation")).saved :=
  ⟨fun _ => rfl, by decide, by decide, by decide, by decide, by decide⟩

/-! ## C13: saving without identifiers -/

theorem doSaveAbstract_saved (env : Env) (arg : Option Abstract) (s : Session) (a : Abstract)
    (hs : s.isAbstractSaved = true) (ha : s.saved = some a) :
    doSaveAbstract env arg s = ajaxSave env (StoreCall.put a.uuid (arg.getD a)) s := by
  unfold doSaveAbstract
  rw [if_pos hs]
  cases arg <;> simp only [ha, Option.getD]

theorem doSaveAbstract_create (env : Env) (arg : Option Abstract) (s : Session) (a : Abstract)
    (c : String) (hs : s.isAbstractSaved = false) (hc : truthyValue env.confId = some c)
    (ha : s.saved = some a) :
    doSaveAbstract env arg s = ajaxSave env (StoreCall.post c (arg.getD a)) s := by
  unfold doSaveAbstract
  rw [if_neg (by simp [hs])]
  cases arg <;> simp only [ha, hc, Option.getD]

theorem doSaveAbstract_missing (env : Env) (arg : Option Abstract) (s : Session)
    (hs : s.isAbstractSaved = false) (hc : truthyValue env.confId = none) :
    doSaveAbstract env arg s =
      { session := s, thrown := some "Conference id or abstract id must be defined" } := by
  unfold doSaveAbstract
  rw [if_neg (by simp [hs])]
  simp only [hc]

theorem doSaveAbstract_thrown_other (env : Env) (arg : Option Abstract) (s : Session)
    (h : s.isAbstractSaved = true ∨ ∃ c, truthyValue env.confId = some c) :
    (doSaveAbstract env arg s).thrown = none ∨
    (doSaveAbstract env arg s).thrown = some typeError := by
  unfold doSaveAbstract
  by_cases hs : s.isAbstractSaved = true
  · rw [if_pos hs]
    cases arg <;> cases s.saved <;> dsimp only <;>
      first
      | exact Or.inr rfl
      | exact Or.inl (ajaxSave_thrown _ _ _)
  · rw [if_neg hs]
    rcases h with h | ⟨c, hc⟩
    · exact absurd h hs
    · rw [hc]
      cases arg <;> cases s.saved <;> dsimp only <;>
        first
        | exact Or.inr rfl
        | exact Or.inl (ajaxSave_thrown _ _ _)

/-- C13, as the code has it: `doSaveAbstract` throws its error about the
missing ids if and only if `isAbstractSaved` is false and no conference id was
supplied; then no request is sent and the session is unchanged. Otherwise,
when a saved abstract exists, it sends exactly one request: an update of the
saved abstract's uuid when `isAbstractSaved` is true, else a creation under
the conference id; the data are the argument, or the saved abstract when no
abstract is passed. -/
theorem C13_save_missing_identifiers (env : Env) (arg : Option Abstract) (s : Session) :
    ((doSaveAbstract env arg s).thrown =
        some "Conference id or abstract id must be defined" ↔
      (s.isAbstractSaved = false ∧ truthyValue env.confId = none)) ∧
    (s.isAbstractSaved = false → truthyValue env.confId = none →
      (doSaveAbstract env arg s).session = s) ∧
    (∀ a, s.saved = some a → s.isAbstractSaved = true →
      (doSaveAbstract env arg s).session.calls =
          s.calls ++ [StoreCall.put a.uuid (arg.getD a)] ∧
        (doSaveAbstract env arg s).thrown = none) ∧
    (∀ a c, s.saved = some a → s.isAbstractSaved = false →
      truthyValue env.confId = some c →
      (doSaveAbstract env arg s).session.calls =
          s.calls ++ [StoreCall.post c (arg.getD a)] ∧
        (doSaveAbstract env arg s).thrown = none) := by
  refine ⟨⟨?_, ?_⟩, ?_, ?_, ?_⟩
  · intro hthrown
    by_cases hs : s.isAbstractSaved = true
    · rcases doSaveAbstract_thrown_other env arg s (Or.inl hs) with h | h
      · rw [h] at hthrown; exact absurd hthrown (by decide)
      · rw [h] at hthrown; exact absurd hthrown (by decide)
    · cases hc : truthyValue env.confId with
      | none => exact ⟨by simpa using hs, rfl⟩
      | some c =>
        rcases doSaveAbstract_thrown_other env arg s (Or.inr ⟨c, hc⟩) with h | h
        · rw [h] at hthrown; exact absurd hthrown (by decide)
        · rw [h] at hthrown; exact absurd hthrown (by decide)
  · rintro ⟨hs, hc⟩
    rw [doSaveAbstract_missing env arg s hs hc]
  · intro hs hc
    rw [doSaveAbstract_missing env arg s hs hc]
  · intro a ha hs
    rw [doSaveAbstract_saved env arg s a hs ha]
    exact ⟨ajaxSave_calls _ _ _, ajaxSave_thrown _ _ _⟩
  · intro a c ha hs hc
    rw [doSaveAbstract_create env arg s a c hs hc ha]
    exact ⟨ajaxSave_calls _ _ _, ajaxSave_thrown _ _ _⟩

/-- C13 on three sessions: a saved abstract is updated, a new abstract of a
view model with a conference id is created, and without a conference id the
error is thrown and nothing is sent. -/
theorem C13_save_missing_identifiers_witness :
    (doSaveAbstract failingEnv none (savedSession none)).session.calls =
      [StoreCall.put (some "u1") (abstractInState none)] ∧
    (doSaveAbstract failingEnv none (init failingEnv Session.initial)).session.calls =
      [StoreCall.post "c1" blankModels.ObservableAbstract] ∧
    (doSaveAbstract missingEnv none
        { savedSession none with isAbstractSaved := false }).thrown =
      some "Conference id or abstract id must be defined" ∧
    (doSaveAbstract missingEnv none
        { savedSession none with isAbstractSaved := false }).session =
      { savedSession none with isAbstractSaved := false } :=
  ⟨((C13_save_missing_identifiers failingEnv none (savedSession none)).2.2.1
      (abstractInState none) rfl rfl).1,
   ((C13_save_missing_identifiers failingEnv none (init failingEnv Session.initial)).2.2.2
      blankModels.ObservableAbstract "c1" (by decide) (by decide) (by decide)).1,
   (C13_save_missing_identifiers missingEnv none
      { savedSession none with isAbstractSaved := false }).1.mpr ⟨rfl, by decide⟩,
   (C13_save_missing_identifiers missingEnv none
      { savedSession none with isAbstractSaved := false }).2.1 rfl (by decide)⟩

/-- C13 is false as stated: after `init` with an abstract id that the Record
Store does not know, `isAbstractSaved` is true and there is no saved abstract;
`doSaveAbstract` then throws a `TypeError` and sends no request. -/
theorem C13_save_without_record_counterexample :
    (init missingEnv Session.initial).isAbstractSaved = true ∧
    (init missingEnv Session.initial).abstract = none ∧
    (doSaveAbstract missingEnv none (init missingEnv Session.initial)).session.calls = [] ∧
    (doSaveAbstract missingEnv none (init missingEnv Session.initial)).thrown =
      some typeError ∧
    (doSaveAbstract missingEnv none (init missingEnv Session.initial)).thrown ≠
      some "Conference id or abstract id must be defined" := by
  decide

/-! ## C17: submitting from a state that allows it -/

/-- C17: for a saved abstract whose state is empty or `InPreparation`,
`showButtonSave` and `showButtonSubmit` are true and `showButtonWithdraw` is
false; `doSubmitAbstract` throws nothing, writes the state `Submitted` into the
saved abstract and sends one update carrying that state; when the Record Store
answers with a record in state `Submitted`, that record is the saved abstract
afterwards, `showButtonWithdraw` is true and `showButtonSubmit` is false. -/
theorem C17_submit_from_legal_state (env : Env) (s : Session) (r : Nat) (a obj : Abstract)
    (hr : s.abstract = some r) (ha : s.objects[r]? = some a)
    (hs : s.isAbstractSaved = true)
    (hstate : stateEmpty a.state ∨ a.state = some "InPreparation")
    (hresp : env.respond (StoreCall.put a.uuid { a with state := some "Submitted" }) =
      some obj)
    (hobj : obj.state = some "Submitted") :
    (showButtonSave s.view = true ∧ showButtonSubmit s.view = true ∧
      showButtonWithdraw s.view = false) ∧
    ((doSubmitAbstract env s).thrown = none ∧
      (doSubmitAbstract env s).session.objects[r]? =
        some { a with state := some "Submitted" } ∧
      (doSubmitAbstract env s).session.calls =
        s.calls ++ [StoreCall.put a.uuid { a with state := some "Submitted" }]) ∧
    ((doSubmitAbstract env s).session.saved = some obj ∧
      (doSubmitAbstract env s).session.isAbstractSaved = true ∧
      showButtonWithdraw (doSubmitAbstract env s).session.view = true ∧
      showButtonSubmit (doSubmitAbstract env s).session.view = false) := by
  have hv := view_abstract s r a hr ha
  have ht := truthy_eq_false_iff a.state
  have hsv : s.view.isAbstractSaved = true := hs
  have hbefore : showButtonSave s.view = true ∧ showButtonSubmit s.view = true ∧
      showButtonWithdraw s.view = false := by
    have htr : truthy a.state = false ∨ a.state = some "InPreparation" :=
      hstate.imp ht.mpr id
    refine ⟨?_, ?_, ?_⟩
    · unfold showButtonSave
      rw [hv]
      rcases htr with h | h <;> simp [h]
    · unfold showButtonSubmit
      rw [hv]
      rcases htr with h | h <;> simp [h, hsv]
    · unfold showButtonWithdraw
      rw [hv]
      rcases hstate with (h | h) | h <;> simp [h]
  have hsub := setStateAndSave_saved env "Submitted" s r a hr ha hs
  have hout : doSubmitAbstract env s =
      { session :=
          { objects := (s.update r { a with state := some "Submitted" }).objects ++ [obj],
            conference := s.conference,
            abstract := some (s.update r { a with state := some "Submitted" }).objects.length,
            editedAbstract := s.editedAbstract,
            isAbstractSaved := true,
            calls := s.calls ++ [StoreCall.put a.uuid { a with state := some "Submitted" }] },
        thrown := none } := by
    unfold doSubmitAbstract
    rw [setStateAndSave_eq env "Submitted" s r a hr ha hs, ajaxSave_success _ _ _ obj hresp]
    rfl
  have hsaved : (doSubmitAbstract env s).session.saved = some obj := by
    rw [hout]
    simp [Session.saved, Session.deref]
  have hview : (doSubmitAbstract env s).session.view.abstract = some obj := hsaved
  have hflag : (doSubmitAbstract env s).session.view.isAbstractSaved = true := by
    rw [hout]
    rfl
  refine ⟨hbefore, ⟨hsub.1, hsub.2.2, hsub.2.1⟩, hsaved, hflag, ?_, ?_⟩
  · unfold showButtonWithdraw
    rw [hview]
    simp [hobj, hflag]
  · unfold showButtonSubmit
    rw [hview]
    simp [hobj, truthy]

/-- C17 on a saved abstract in preparation, with a Record Store that answers
with the data it was sent. -/
theorem C17_submit_from_legal_state_witness :
    showButtonSubmit (savedSession (some "InPreparation")).view = true ∧
    (doSubmitAbstract echoEnv (savedSession (some "InPreparation"))).session.calls =
      [StoreCall.put (some "u1") (abstractInState (some "Submitted"))] ∧
    showButtonWithdraw
      (doSubmitAbstract echoEnv (savedSession (some "InPreparation"))).session.view = true ∧
    showButtonSubmit
      (doSubmitAbstract echoEnv (savedSession (some "InPreparation"))).session.view = false :=
  ⟨(C17_submit_from_legal_state echoEnv (savedSession (some "InPreparation")) 0
      (abstractInState (some "InPreparation")) (abstractInState (some "Submitted"))
      rfl rfl rfl (Or.inr rfl) rfl rfl).1.2.1,
   (C17_submit_from_legal_state echoEnv (savedSession (some "InPreparation")) 0
      (abstractInState (some "InPreparation")) (abstractInState (some "Submitted"))
      rfl rfl rfl (Or.inr rfl) rfl rfl).2.1.2.2,
   (C17_submit_from_legal_state echoEnv (savedSession (some "InPreparation")) 0
      (abstractInState (some "InPreparation")) (abstractInState (some "Submitted"))
      rfl rfl rfl (Or.inr rfl) rfl rfl).2.2.2.2.1,
   (C17_submit_from_legal_state echoEnv (savedSession (some "InPreparation")) 0
      (abstractInState (some "InPreparation")) (abstractInState (some "Submitted"))
      rfl rfl rfl (Or.inr rfl) rfl rfl).2.2.2.2.2⟩

/-! ## C15: the draft and the saved abstract -/

theorem runEditOp_fields (env : Env) (op : EditOp) (s : Session) :
    (runEditOp env op s).abstract = s.abstract ∧
    (runEditOp env op s).editedAbstract = s.editedAbstract ∧
    (runEditOp env op s).isAbstractSaved = s.isAbstractSaved ∧
    (runEditOp env op s).calls = s.calls := by
  unfold runEditOp
  split
  · exact ⟨rfl, rfl, rfl, rfl⟩
  · split <;> exact ⟨rfl, rfl, rfl, rfl⟩

theorem runEditOp_saved_of_ne (env : Env) (op : EditOp) (s : Session)
    (hne : s.editedAbstract ≠ s.abstract) : (runEditOp env op s).saved = s.saved := by
  unfold runEditOp
  cases he : s.editedAbstract with
  | none => rfl
  | some re =>
    dsimp only
    cases s.objects[re]? with
    | none => rfl
    | some edited =>
      simp only [Session.saved, Session.update]
      cases ha : s.abstract with
      | none => rfl
      | some ra =>
        have hra : re ≠ ra := by
          intro h
          apply hne
          rw [he, ha, h]
        simp only [Session.deref]
        exact List.getElem?_set_ne hra

theorem runEditOps_saved_of_ne (env : Env) (ops : List EditOp) (s : Session)
    (hne : s.editedAbstract ≠ s.abstract) :
    (runEditOps env ops s).saved = s.saved ∧ (runEditOps env ops s).abstract = s.abstract := by
  induction ops generalizing s with
  | nil => exact ⟨rfl, rfl⟩
  | cons op ops ih =>
    have hf := runEditOp_fields env op s
    have hne2 : (runEditOp env op s).editedAbstract ≠ (runEditOp env op s).abstract := by
      rw [hf.1, hf.2.1]
      exact hne
    have h := ih (runEditOp env op s) hne2
    exact ⟨h.1.trans (runEditOp_saved_of_ne env op s hne), h.2.trans hf.1⟩

theorem doStartEdit_eq (s : Session) (a : Abstract) (ha : s.saved = some a) :
    doStartEdit s =
      { session :=
          { s with objects := s.objects ++ [a], editedAbstract := some s.objects.length },
        thrown := none } := by
  unfold doStartEdit
  rw [ha]
  rfl

theorem saved_lt (s : Session) (a : Abstract) (ha : s.saved = some a) :
    ∃ r, s.abstract = some r ∧ r < s.objects.length ∧ s.objects[r]? = some a := by
  unfold Session.saved at ha
  cases hr : s.abstract with
  | none => rw [hr] at ha; simp [Session.deref] at ha
  | some r =>
    rw [hr] at ha
    simp only [Session.deref] at ha
    exact ⟨r, rfl, (List.getElem?_eq_some.mp ha).1, ha⟩

/-- C15, as the code has it: an edit operation changes the object that
`editedAbstract` holds and never assigns `abstract`. When the two observables
hold different objects, as they do after `doStartEdit`, every sequence of edit
operations leaves the saved abstract unchanged. After `init` without an
abstract id, and after `doEndEdit` with `isAbstractSaved` false, the two
observables hold the same object, and an edit operation on the draft is then
an edit of the saved abstract as well. -/
theorem C15_draft_and_saved (env : Env) (s : Session) :
    (∀ ops, s.editedAbstract ≠ s.abstract →
      (runEditOps env ops s).saved = s.saved ∧
        (runEditOps env ops s).abstract = s.abstract) ∧
    (∀ a, s.saved = some a →
      (doStartEdit s).thrown = none ∧
        (doStartEdit s).session.editedAbstract ≠ (doStartEdit s).session.abstract ∧
        (doStartEdit s).session.draft = some a ∧
        (doStartEdit s).session.saved = some a ∧
        ∀ ops, (runEditOps env ops (doStartEdit s).session).saved = some a) ∧
    (truthyValue env.abstrId = none →
      (init env Session.initial).editedAbstract = (init env Session.initial).abstract) ∧
    (s.isAbstractSaved = false →
      (doEndEdit env s).session.editedAbstract = (doEndEdit env s).session.abstract) ∧
    (∀ op r edited, s.editedAbstract = some r → s.abstract = some r →
      s.objects[r]? = some edited →
      (runEditOp env op s).saved = some (applyEditOp env.models op edited)) := by
  refine ⟨fun ops hne => runEditOps_saved_of_ne env ops s hne, ?_, ?_, ?_, ?_⟩
  · intro a ha
    obtain ⟨r, hr, hlt, hget⟩ := saved_lt s a ha
    have e := doStartEdit_eq s a ha
    have hne : (doStartEdit s).session.editedAbstract ≠ (doStartEdit s).session.abstract := by
      rw [e]
      show some s.objects.length ≠ s.abstract
      rw [hr]
      intro h
      have := Option.some.inj h
      omega
    have hsaved : (doStartEdit s).session.saved = some a := by
      rw [e]
      show Session.deref _ s.abstract = some a
      rw [hr]
      simp only [Session.deref]
      rw [List.getElem?_append_left hlt]
      exact hget
    refine ⟨by rw [e], hne, ?_, hsaved, ?_⟩
    · rw [e]
      simp [Session.draft, Session.deref]
    · intro ops
      rw [(runEditOps_saved_of_ne env ops _ hne).1]
      exact hsaved
  · intro h
    cases hc : truthyValue env.confId with
    | none => simp [init, h, hc, Session.alloc, Session.initial]
    | some c =>
      cases hf : env.fetchConference c <;>
        simp [init, h, hc, hf, requestConference, Session.alloc, Session.initial]
  · intro hs
    unfold doEndEdit
    rw [if_neg (by simp [hs])]
  · intro op r edited he ha hget
    have hlt : r < s.objects.length := (List.getElem?_eq_some.mp hget).1
    unfold runEditOp
    rw [he]
    simp only [hget]
    simp only [Session.saved, Session.update, ha, Session.deref]
    exact List.getElem?_set_self hlt

/-- C15 on the session after `init` without ids: after `doStartEdit` the added
author is not in the saved abstract; without `doStartEdit` the draft is the
saved abstract. -/
theorem C15_draft_and_saved_witness :
    (runEditOps failingEnv [.addAuthor, .addReference]
      (doStartEdit (init failingEnv Session.initial)).session).saved =
      some blankModels.ObservableAbstract ∧
    (init failingEnv Session.initial).editedAbstract =
      (init failingEnv Session.initial).abstract ∧
    (runEditOps failingEnv [.addAffiliation]
      (doStartEdit (init failingEnv Session.initial)).session).saved =
      (doStartEdit (init failingEnv Session.initial)).session.saved ∧
    (doEndEdit failingEnv
      (doStartEdit (init failingEnv Session.initial)).session).session.editedAbstract =
      (doEndEdit failingEnv
        (doStartEdit (init failingEnv Session.initial)).session).session.abstract ∧
    (runEditOp failingEnv .addAuthor (init failingEnv Session.initial)).saved =
      some (applyEditOp failingEnv.models .addAuthor blankModels.ObservableAbstract) :=
  ⟨((C15_draft_and_saved failingEnv (init failingEnv Session.initial)).2.1
      blankModels.ObservableAbstract (by decide)).2.2.2.2 [.addAuthor, .addReference],
   (C15_draft_and_saved failingEnv Session.initial).2.2.1 (by decide),
   ((C15_draft_and_saved failingEnv
      (doStartEdit (init failingEnv Session.initial)).session).1 [.addAffiliation]
      (by decide)).1,
   (C15_draft_and_saved failingEnv
      (doStartEdit (init failingEnv Session.initial)).session).2.2.2.1 (by decide),
   (C15_draft_and_saved failingEnv (init failingEnv Session.initial)).2.2.2.2
      .addAuthor 0 blankModels.ObservableAbstract (by decide) (by decide) (by decide)⟩

/-- C15 is false as stated: in the session after `init` without ids,
`doEditAddAuthor` on the draft changes the saved abstract, which then has one
author. -/
theorem C15_edit_after_init_counterexample :
    (init failingEnv Session.initial).saved.map (fun a => a.authors.length) = some 0 ∧
    (runEditOp failingEnv .addAuthor (init failingEnv Session.initial)).saved.map
      (fun a => a.authors.length) = some 1 ∧
    (runEditOp failingEnv .addAuthor (init failingEnv Session.initial)).saved ≠
      (init failingEnv Session.initial).saved := by
  decide

/-! ## Every observable holds `null` or an object of the session -/

theorem wellFormed_initial : Session.initial.wellFormed := by
  decide

theorem wellFormed_ajaxSave (env : Env) (call : StoreCall) (s : Session)
    (h : s.wellFormed) : (ajaxSave env call s).session.wellFormed := by
  cases hresp : env.respond call with
  | none =>
    rw [ajaxSave_fail _ _ _ hresp]
    exact h
  | some obj =>
    rw [ajaxSave_success _ _ _ _ hresp]
    constructor
    · intro r hr
      have : s.objects.length = r := Option.some.inj hr
      simp only [List.length_append, List.length_singleton]
      omega
    · intro r hr
      have := h.2 r hr
      simp only [List.length_append, List.length_singleton]
      omega

theorem wellFormed_doSaveAbstract (env : Env) (arg : Option Abstract) (s : Session)
    (h : s.wellFormed) : (doSaveAbstract env arg s).session.wellFormed := by
  rcases doSaveAbstract_shape env arg s with ⟨t, ht⟩ | ⟨call, hcall⟩
  · rw [ht]
    exact h
  · rw [hcall]
    exact wellFormed_ajaxSave env call s h

theorem wellFormed_update (s : Session) (r : Nat) (a : Abstract) (h : s.wellFormed) :
    (s.update r a).wellFormed := by
  constructor
  · intro q hq
    simpa [Session.update] using h.1 q hq
  · intro q hq
    simpa [Session.update] using h.2 q hq

theorem wellFormed_setStateAndSave (env : Env) (value : String) (s : Session)
    (h : s.wellFormed) : (setStateAndSave env value s).session.wellFormed := by
  unfold setStateAndSave
  split
  · exact h
  · split
    · exact h
    · exact wellFormed_doSaveAbstract env _ _ (wellFormed_update s _ _ h)

theorem wellFormed_doStartEdit (s : Session) (h : s.wellFormed) :
    (doStartEdit s).session.wellFormed := by
  cases ha : s.saved with
  | none =>
    unfold doStartEdit
    rw [ha]
    exact h
  | some a =>
    rw [doStartEdit_eq s a ha]
    constructor
    · intro r hr
      have := h.1 r hr
      simp only [List.length_append, List.length_singleton]
      omega
    · intro r hr
      have : s.objects.length = r := Option.some.inj hr
      simp only [List.length_append, List.length_singleton]
      omega

theorem wellFormed_doEndEdit (env : Env) (s : Session) (h : s.wellFormed) :
    (doEndEdit env s).session.wellFormed := by
  unfold doEndEdit
  split
  · exact wellFormed_doSaveAbstract env _ s h
  · exact ⟨h.2, h.2⟩

theorem wellFormed_runEditOp (env : Env) (op : EditOp) (s : Session) (h : s.wellFormed) :
    (runEditOp env op s).wellFormed := by
  unfold runEditOp
  split
  · exact h
  · split
    · exact h
    · exact wellFormed_update s _ _ h

theorem wellFormed_init (env : Env) : (init env Session.initial).wellFormed := by
  unfold init requestConference requestAbstract Session.alloc Session.initial
    Session.wellFormed
  (repeat' split) <;> simp_all

end Editor
